import Mathlib

/-!
Shallow embedding of the LunaTV SQLite storage engine
(`SqliteStorage` and its helpers) and proofs about it.

The storage engine persists JSON documents (play records, favorites, skip
configs, admin configuration fragments) as text produced by `JSON.stringify`
and read back with `JSON.parse`.  We therefore first build an executable
model of the JSON value space together with a serializer and a parser, and
prove the serialize/parse round trip.  JavaScript numbers are modelled by
`Int` (the documents stored by this engine use integral numbers); the
whitespace-free fragment of JSON is modelled, which is exactly what
`JSON.stringify` emits.  `Json`, `JsonList` and `JsonProps` form a mutual
inductive so that all functions on them are structurally recursive and
evaluate inside the kernel.
-/

namespace LunaTV

mutual

/-- Model of a JSON value (the document space of `JSON.stringify`/`JSON.parse`). -/
inductive Json where
  | null : Json
  | bool (b : Bool) : Json
  | num (n : Int) : Json
  | str (s : String) : Json
  | arr (elems : JsonList) : Json
  | obj (fields : JsonProps) : Json

/-- A list of JSON values (elements of a JSON array). -/
inductive JsonList where
  | nil : JsonList
  | cons (hd : Json) (tl : JsonList) : JsonList

/-- A list of JSON object properties (key/value pairs). -/
inductive JsonProps where
  | nil : JsonProps
  | cons (key : String) (val : Json) (tl : JsonProps) : JsonProps

end

/-- Build a `JsonList` from an ordinary list. -/
def JsonList.ofList : List Json → JsonList
  | [] => .nil
  | j :: t => .cons j (ofList t)

/-- JavaScript truthiness of a JSON value (used for `if (config.X)` checks). -/
def jsTruthy : Json → Bool
  | .null => false
  | .bool b => b
  | .num n => n != 0
  | .str s => s != ""
  | .arr _ => true
  | .obj _ => true

/-- Whether a JSON value is an array. -/
def Json.isArr : Json → Bool
  | .arr _ => true
  | _ => false

/-- Character for a decimal digit, `d ↦ '0'+d`. -/
def digChar (d : Nat) : Char := Char.ofNat (48 + d)

/-- Decimal digit characters of a positive natural number, most significant
first; `fuel` bounds the recursion depth (any `fuel ≥ n` is exact). -/
def natCharsAux : Nat → Nat → List Char
  | _, 0 => []
  | 0, _ + 1 => []
  | fuel + 1, n + 1 => natCharsAux fuel ((n + 1) / 10) ++ [digChar ((n + 1) % 10)]

/-- Decimal digit characters of a natural number, most significant first. -/
def natChars (n : Nat) : List Char :=
  if n = 0 then ['0'] else natCharsAux n n

/-- Decimal representation of an integer, as emitted by `JSON.stringify`. -/
def intChars (n : Int) : List Char :=
  if n < 0 then '-' :: natChars n.natAbs else natChars n.toNat

/-- Hex digit character (lowercase), as used in `\u00XX` escapes. -/
def hexChar (d : Nat) : Char :=
  if d < 10 then Char.ofNat (48 + d) else Char.ofNat (87 + d)

/-- Escape of one character inside a JSON string literal, following
`JSON.stringify`: quote and backslash are escaped, common control characters
use their short escapes, all other control characters use `\u00XX`. -/
def escChar (c : Char) : List Char :=
  if c = '"' then ['\\', '"']
  else if c = '\\' then ['\\', '\\']
  else if c = '\n' then ['\\', 'n']
  else if c = '\r' then ['\\', 'r']
  else if c = '\t' then ['\\', 't']
  else if c = '\x08' then ['\\', 'b']
  else if c = '\x0c' then ['\\', 'f']
  else if c.toNat < 32 then
    ['\\', 'u', '0', '0', hexChar (c.toNat / 16), hexChar (c.toNat % 16)]
  else [c]

/-- Escaped body of a JSON string literal. -/
def escBody (cs : List Char) : List Char := cs.flatMap escChar

mutual

/-- Characters emitted by `JSON.stringify` for a JSON value. -/
def serVal : Json → List Char
  | .null => 'n' :: ['u', 'l', 'l']
  | .bool true => 't' :: ['r', 'u', 'e']
  | .bool false => 'f' :: ['a', 'l', 's', 'e']
  | .num n => intChars n
  | .str s => '"' :: (escBody s.data ++ ['"'])
  | .arr .nil => ['[', ']']
  | .arr (.cons x xs) => '[' :: (serVal x ++ serItems xs ++ [']'])
  | .obj .nil => ['\x7b', '\x7d']
  | .obj (.cons k v ps) =>
      '\x7b' :: ('"' :: (escBody k.data ++ '"' :: ':' :: serVal v) ++ serProps ps ++ ['\x7d'])

/-- Serialization of the remaining array elements, each preceded by a comma. -/
def serItems : JsonList → List Char
  | .nil => []
  | .cons x xs => ',' :: (serVal x ++ serItems xs)

/-- Serialization of the remaining object properties, each preceded by a
comma. -/
def serProps : JsonProps → List Char
  | .nil => []
  | .cons k v ps => ',' :: ('"' :: (escBody k.data ++ '"' :: ':' :: serVal v) ++ serProps ps)

end

/-- Model of `JSON.stringify`. -/
def jsonStringify (j : Json) : String := ⟨serVal j⟩

/-- Numeric value of a hex digit character (accepting both cases). -/
def hexVal (c : Char) : Option Nat :=
  if '0' ≤ c ∧ c ≤ '9' then some (c.toNat - 48)
  else if 'a' ≤ c ∧ c ≤ 'f' then some (c.toNat - 87)
  else if 'A' ≤ c ∧ c ≤ 'F' then some (c.toNat - 55)
  else none

/-- Decoding of a single-character escape sequence in a JSON string literal. -/
def unescChar (c : Char) : Option Char :=
  if c = '"' then some '"'
  else if c = '\\' then some '\\'
  else if c = '/' then some '/'
  else if c = 'n' then some '\n'
  else if c = 'r' then some '\r'
  else if c = 't' then some '\t'
  else if c = 'b' then some '\x08'
  else if c = 'f' then some '\x0c'
  else none

/-- Parse the body of a JSON string literal up to (and consuming) the closing
quote; returns the decoded characters and the remaining input.  Raw control
characters are rejected, as in `JSON.parse`. -/
def parseStrBody : List Char → Option (List Char × List Char)
  | [] => none
  | c :: rest =>
      if c = '"' then some ([], rest)
      else if c = '\\' then
        match rest with
        | [] => none
        | e :: rest2 =>
            if e = 'u' then
              match rest2 with
              | h1 :: h2 :: h3 :: h4 :: rest3 => do
                  let v1 ← hexVal h1
                  let v2 ← hexVal h2
                  let v3 ← hexVal h3
                  let v4 ← hexVal h4
                  let (s, r) ← parseStrBody rest3
                  some (Char.ofNat (((v1 * 16 + v2) * 16 + v3) * 16 + v4) :: s, r)
              | _ => none
            else do
              let c2 ← unescChar e
              let (s, r) ← parseStrBody rest2
              some (c2 :: s, r)
      else if c.toNat < 32 then none
      else do
        let (s, r) ← parseStrBody rest
        some (c :: s, r)

/-- Numeric value of a nonempty run of decimal digit characters. -/
def parseNat (ds : List Char) : Nat :=
  ds.foldl (fun a c => 10 * a + (c.toNat - 48)) 0

mutual

/-- Fuel-indexed recursive-descent parser for a JSON value (the
whitespace-free fragment emitted by `JSON.stringify`); returns the value and
the remaining input. -/
def parseVal : Nat → List Char → Option (Json × List Char)
  | 0, _ => none
  | _ + 1, [] => none
  | fuel + 1, c :: rest =>
      if c = 'n' then
        match rest with
        | 'u' :: 'l' :: 'l' :: r => some (.null, r)
        | _ => none
      else if c = 't' then
        match rest with
        | 'r' :: 'u' :: 'e' :: r => some (.bool true, r)
        | _ => none
      else if c = 'f' then
        match rest with
        | 'a' :: 'l' :: 's' :: 'e' :: more => some (.bool false, more)
        | _ => none
      else if c = '"' then
        (parseStrBody rest).map (fun p => (.str ⟨p.1⟩, p.2))
      else if c = '[' then
        if rest.head? = some ']' then some (.arr .nil, rest.tail)
        else (parseItems fuel rest).map (fun p => (.arr p.1, p.2))
      else if c = '\x7b' then
        if rest.head? = some '\x7d' then some (.obj .nil, rest.tail)
        else (parseProps fuel rest).map (fun p => (.obj p.1, p.2))
      else if c = '-' then
        let ds := rest.takeWhile Char.isDigit
        if ds.isEmpty then none
        else some (.num (-(parseNat ds : Int)), rest.dropWhile Char.isDigit)
      else if c.isDigit then
        let ds := (c :: rest).takeWhile Char.isDigit
        some (.num (parseNat ds : Int), (c :: rest).dropWhile Char.isDigit)
      else none

/-- Parse a nonempty comma-separated list of values terminated by `]`. -/
def parseItems : Nat → List Char → Option (JsonList × List Char)
  | 0, _ => none
  | fuel + 1, cs => do
      let (v, r) ← parseVal fuel cs
      match r with
      | ',' :: r2 => (parseItems fuel r2).map (fun p => (.cons v p.1, p.2))
      | ']' :: r2 => some (.cons v .nil, r2)
      | _ => none

/-- Parse a nonempty comma-separated list of properties terminated by the
closing brace. -/
def parseProps : Nat → List Char → Option (JsonProps × List Char)
  | 0, _ => none
  | fuel + 1, cs => do
      match cs with
      | '"' :: cs1 => do
          let (k, r1) ← parseStrBody cs1
          match r1 with
          | ':' :: r2 => do
              let (v, r3) ← parseVal fuel r2
              match r3 with
              | ',' :: r4 => (parseProps fuel r4).map (fun p => (.cons ⟨k⟩ v p.1, p.2))
              | '\x7d' :: r4 => some (.cons ⟨k⟩ v .nil, r4)
              | _ => none
          | _ => none
      | _ => none

end

/-- Model of `JSON.parse` (on the whitespace-free JSON fragment): `none`
models a thrown `SyntaxError`. -/
def jsonParse (s : String) : Option Json :=
  match parseVal (s.data.length + 1) s.data with
  | some (j, []) => some j
  | _ => none

/-- The input does not begin with a decimal digit (boundary condition for
number parsing). -/
def headNotDigit (r : List Char) : Prop := ∀ c, r.head? = some c → c.isDigit = false

theorem headNotDigit_nil : headNotDigit [] := by intro c h; simp at h

theorem headNotDigit_cons {c : Char} {r : List Char} (h : c.isDigit = false) :
    headNotDigit (c :: r) := by
  intro d hd
  simp only [List.head?_cons, Option.some.injEq] at hd
  exact hd ▸ h

theorem digChar_toNat {d : Nat} (h : d < 10) : (digChar d).toNat = 48 + d := by
  interval_cases d <;> decide

theorem digChar_isDigit {d : Nat} (h : d < 10) : (digChar d).isDigit = true := by
  interval_cases d <;> decide

theorem isDigit_toNat {c : Char} (h : c.isDigit = true) :
    48 ≤ c.toNat ∧ c.toNat ≤ 57 := by
  unfold Char.isDigit at h
  simp only [decide_eq_true_eq, Bool.and_eq_true] at h
  obtain ⟨h1, h2⟩ := h
  exact ⟨by exact_mod_cast h1, by exact_mod_cast h2⟩

theorem hexVal_hexChar {d : Nat} (h : d < 16) : hexVal (hexChar d) = some d := by
  interval_cases d <;> decide

theorem natCharsAux_digits (fuel : Nat) :
    ∀ n, ∀ c ∈ natCharsAux fuel n, c.isDigit = true := by
  induction fuel with
  | zero => intro n c hc; cases n <;> simp [natCharsAux] at hc
  | succ f ih =>
      intro n c hc
      cases n with
      | zero => simp [natCharsAux] at hc
      | succ m =>
          simp only [natCharsAux, List.mem_append, List.mem_singleton] at hc
          rcases hc with hc | hc
          · exact ih _ c hc
          · exact hc ▸ digChar_isDigit (Nat.mod_lt _ (by omega))

theorem foldl_natCharsAux (fuel : Nat) :
    ∀ n, n ≤ fuel → ∀ a : Nat,
      List.foldl (fun a c => 10 * a + (c.toNat - 48)) a (natCharsAux fuel n) =
        a * 10 ^ (natCharsAux fuel n).length + n := by
  induction fuel with
  | zero =>
      intro n hn a
      interval_cases n
      simp [natCharsAux]
  | succ f ih =>
      intro n hn a
      cases n with
      | zero => simp [natCharsAux]
      | succ m =>
          have hq : (m + 1) / 10 ≤ f := by omega
          simp only [natCharsAux, List.foldl_append, List.foldl_cons, List.foldl_nil,
            List.length_append, List.length_singleton]
          rw [ih _ hq]
          rw [digChar_toNat (Nat.mod_lt _ (by omega : (0:Nat) < 10))]
          have hdm : 48 + (m + 1) % 10 - 48 = (m + 1) % 10 := by omega
          rw [hdm]
          have := Nat.div_add_mod (m + 1) 10
          ring_nf
          omega

theorem parseNat_natChars (n : Nat) : parseNat (natChars n) = n := by
  by_cases h : n = 0
  · subst h; decide
  · unfold natChars parseNat
    rw [if_neg h]
    rw [foldl_natCharsAux n n le_rfl 0]
    simp

theorem natChars_digits (n : Nat) : ∀ c ∈ natChars n, c.isDigit = true := by
  intro c hc
  unfold natChars at hc
  by_cases h : n = 0
  · rw [if_pos h] at hc; simp at hc; subst hc; decide
  · rw [if_neg h] at hc; exact natCharsAux_digits n n c hc

theorem natCharsAux_ne_nil (fuel n : Nat) (hn : 0 < n) (hf : n ≤ fuel) :
    natCharsAux fuel n ≠ [] := by
  cases fuel with
  | zero => omega
  | succ f =>
      cases n with
      | zero => omega
      | succ m => simp [natCharsAux]

theorem natChars_ne_nil (n : Nat) : natChars n ≠ [] := by
  unfold natChars
  by_cases h : n = 0
  · simp [h]
  · rw [if_neg h]; exact natCharsAux_ne_nil n n (by omega) le_rfl

theorem takeWhile_append_split {p : Char → Bool} {l r : List Char}
    (hl : ∀ c ∈ l, p c = true) (hr : ∀ c, r.head? = some c → p c = false) :
    (l ++ r).takeWhile p = l ∧ (l ++ r).dropWhile p = r := by
  induction l with
  | nil =>
      simp only [List.nil_append]
      cases r with
      | nil => simp
      | cons c r' =>
          have := hr c (by simp)
          simp [List.takeWhile, List.dropWhile, this]
  | cons c l' ih =>
      have hc : p c = true := hl c (by simp)
      have ih' := ih (fun d hd => hl d (by simp [hd]))
      simp [List.takeWhile, List.dropWhile, hc, ih'.1, ih'.2]

theorem parseStrBody_escBody (cs : List Char) (rest : List Char) :
    parseStrBody (escBody cs ++ '"' :: rest) = some (cs, rest) := by
  induction cs with
  | nil =>
      show parseStrBody ('"' :: rest) = some ([], rest)
      rw [parseStrBody.eq_def]
      simp
  | cons c cs' ih =>
      have hstep : escBody (c :: cs') = escChar c ++ escBody cs' := by
        simp [escBody]
      rw [hstep, List.append_assoc]
      unfold escChar
      by_cases h1 : c = '"'
      · rw [if_pos h1]
        rw [List.cons_append, List.cons_append, List.nil_append, parseStrBody.eq_def]
        simp [unescChar, ih, h1]
      · rw [if_neg h1]
        by_cases h2 : c = '\\'
        · rw [if_pos h2]
          rw [List.cons_append, List.cons_append, List.nil_append, parseStrBody.eq_def]
          simp [unescChar, ih, h2]
        · rw [if_neg h2]
          by_cases h3 : c = '\n'
          · rw [if_pos h3]
            rw [List.cons_append, List.cons_append, List.nil_append, parseStrBody.eq_def]
            simp [unescChar, ih, h3]
          · rw [if_neg h3]
            by_cases h4 : c = '\r'
            · rw [if_pos h4]
              rw [List.cons_append, List.cons_append, List.nil_append, parseStrBody.eq_def]
              simp [unescChar, ih, h4]
            · rw [if_neg h4]
              by_cases h5 : c = '\t'
              · rw [if_pos h5]
                rw [List.cons_append, List.cons_append, List.nil_append, parseStrBody.eq_def]
                simp [unescChar, ih, h5]
              · rw [if_neg h5]
                by_cases h6 : c = '\x08'
                · rw [if_pos h6]
                  rw [List.cons_append, List.cons_append, List.nil_append, parseStrBody.eq_def]
                  simp [unescChar, ih, h6]
                · rw [if_neg h6]
                  by_cases h7 : c = '\x0c'
                  · rw [if_pos h7]
                    rw [List.cons_append, List.cons_append, List.nil_append, parseStrBody.eq_def]
                    simp [unescChar, ih, h7]
                  · rw [if_neg h7]
                    by_cases h8 : c.toNat < 32
                    · rw [if_pos h8]
                      have hq : c.toNat / 16 < 16 := by omega
                      have hr : c.toNat % 16 < 16 := by omega
                      simp only [List.cons_append, List.nil_append]
                      rw [parseStrBody.eq_def]
                      simp only [reduceCtorEq, reduceIte, hexVal_hexChar hq,
                        hexVal_hexChar hr, ih]
                      have e0 : hexVal '0' = some 0 := by decide
                      simp only [e0, Option.bind_eq_bind, Option.some_bind, ih]
                      have harith :
                          (((0 * 16 + 0) * 16 + c.toNat / 16) * 16 + c.toNat % 16) =
                            c.toNat := by omega
                      rw [harith, Char.ofNat_toNat]
                      rw [if_neg (by decide : ¬(('\\' : Char) = '"'))]
                    · rw [if_neg h8]
                      simp only [List.cons_append, List.nil_append]
                      rw [parseStrBody.eq_def]
                      simp only [if_neg h1, if_neg h2, if_neg h8, ih,
                        Option.bind_eq_bind, Option.some_bind]

/-- The serialization of a value never begins with a list or object
terminator (needed to show the parser does not mistake an element for an
empty collection). -/
theorem serVal_head_ne (j : Json) :
    ∀ c, (serVal j).head? = some c → c ≠ ']' ∧ c ≠ '\x7d' := by
  intro c hc
  cases j with
  | null => simp [serVal] at hc; subst hc; decide
  | bool b => cases b <;> simp [serVal] at hc <;> (subst hc; decide)
  | num n =>
      simp only [serVal, intChars] at hc
      by_cases h : n < 0
      · rw [if_pos h] at hc
        simp at hc; subst hc; decide
      · rw [if_neg h] at hc
        obtain ⟨d, ds, hds⟩ := List.exists_cons_of_ne_nil (natChars_ne_nil n.toNat)
        rw [hds] at hc
        simp at hc
        have hd : d.isDigit = true := natChars_digits n.toNat d (by rw [hds]; simp)
        have := isDigit_toNat hd
        subst hc
        constructor <;> (intro heq; rw [heq] at this; revert this; decide)
  | str s => simp [serVal] at hc; subst hc; decide
  | arr l => cases l <;> simp [serVal] at hc <;> (subst hc; decide)
  | obj l => cases l <;> simp [serVal] at hc <;> (subst hc; decide)

/-- A digit character is not any of the keyword/string/structure openers. -/
theorem isDigit_ne_openers {c : Char} (h : c.isDigit = true) :
    c ≠ '-' ∧ c ≠ '\x7b' ∧ c ≠ '[' ∧ c ≠ '"' ∧ c ≠ 'f' ∧ c ≠ 't' ∧ c ≠ 'n' := by
  have := isDigit_toNat h
  refine ⟨?_, ?_, ?_, ?_, ?_, ?_, ?_⟩ <;>
    (intro heq; rw [heq] at this; revert this; decide)

theorem serVal_ne_nil (j : Json) : serVal j ≠ [] := by
  cases j with
  | null => simp [serVal]
  | bool b => cases b <;> simp [serVal]
  | num n =>
      simp only [serVal, intChars]
      by_cases h : n < 0
      · simp [h]
      · rw [if_neg h]; exact natChars_ne_nil n.toNat
  | str s => simp [serVal]
  | arr l => cases l <;> simp [serVal]
  | obj l => cases l <;> simp [serVal]

/-- One-step unfolding of `parseItems` at a successor fuel value. -/
theorem parseItems_succ (f : Nat) (cs : List Char) :
    parseItems (f + 1) cs = (do
      let (v, r) ← parseVal f cs
      match r with
      | ',' :: r2 => (parseItems f r2).map (fun p => (.cons v p.1, p.2))
      | ']' :: r2 => some (.cons v .nil, r2)
      | _ => none) := rfl

/-- One-step unfolding of `parseProps` at a successor fuel value, on an input
that starts with a string literal. -/
theorem parseProps_succ_quote (f : Nat) (cs1 : List Char) :
    parseProps (f + 1) ('"' :: cs1) = (do
      let (k, r1) ← parseStrBody cs1
      match r1 with
      | ':' :: r2 => do
          let (v, r3) ← parseVal f r2
          match r3 with
          | ',' :: r4 => (parseProps f r4).map (fun p => (.cons ⟨k⟩ v p.1, p.2))
          | '\x7d' :: r4 => some (.cons ⟨k⟩ v .nil, r4)
          | _ => none
      | _ => none) := rfl

/-- Joint induction statement: with enough fuel the parser inverts the
serializer (for values, for nonempty array tails, and for nonempty property
lists). -/
theorem parse_inverts_ser (fuel : Nat) :
    (∀ j rest, (serVal j).length ≤ fuel → headNotDigit rest →
      parseVal fuel (serVal j ++ rest) = some (j, rest))
    ∧ (∀ x xs rest, (serVal x ++ serItems xs).length + 1 ≤ fuel →
      parseItems fuel (serVal x ++ serItems xs ++ ']' :: rest) =
        some (.cons x xs, rest))
    ∧ (∀ k v ps rest,
        ('"' :: (escBody k.data ++ '"' :: ':' :: serVal v) ++ serProps ps).length + 1 ≤
          fuel →
      parseProps fuel
          ('"' :: (escBody k.data ++ '"' :: ':' :: serVal v) ++ serProps ps ++
            '\x7d' :: rest) =
        some (.cons k v ps, rest)) := by
  induction fuel with
  | zero =>
      refine ⟨?_, ?_, ?_⟩
      · intro j rest hlen _
        have := List.length_pos.mpr (serVal_ne_nil j)
        omega
      · intro x xs rest hb; omega
      · intro k v ps rest hb; omega
  | succ f ih =>
      obtain ⟨ihv, ihl, ihp⟩ := ih
      refine ⟨?_, ?_, ?_⟩
      · -- values
        intro j rest hlen hrest
        cases j with
        | null =>
            show parseVal (f + 1) ('n' :: 'u' :: 'l' :: 'l' :: rest) = _
            rw [parseVal.eq_def]; simp
        | bool b =>
            cases b with
            | true =>
                show parseVal (f + 1) ('t' :: 'r' :: 'u' :: 'e' :: rest) = _
                rw [parseVal.eq_def]; simp
            | false =>
                show parseVal (f + 1) ('f' :: (['a', 'l', 's', 'e'] ++ rest)) = _
                rw [parseVal.eq_def]; simp
        | str s =>
            obtain ⟨sd⟩ := s
            show parseVal (f + 1) ('"' :: (escBody sd ++ ['"']) ++ rest) = _
            rw [parseVal.eq_def]
            have : (escBody sd ++ ['"']) ++ rest = escBody sd ++ '"' :: rest := by
              simp
            simp only [List.cons_append, this]
            simp [parseStrBody_escBody sd rest]
        | num n =>
            by_cases hn : n < 0
            · have hser : serVal (.num n) = '-' :: natChars n.natAbs := by
                simp [serVal, intChars, hn]
              rw [hser]
              rw [List.cons_append, parseVal.eq_def]
              have hsplit := takeWhile_append_split (p := Char.isDigit)
                (natChars_digits n.natAbs) hrest
              simp only [hsplit.1, hsplit.2]
              have hne : (natChars n.natAbs).isEmpty = false := by
                cases h : natChars n.natAbs with
                | nil => exact absurd h (natChars_ne_nil _)
                | cons a l => rfl
              simp only [hne]
              have hval : -(parseNat (natChars n.natAbs) : Int) = n := by
                rw [parseNat_natChars]; omega
              simp [hval]
            · have hser : serVal (.num n) = natChars n.toNat := by
                simp [serVal, intChars, hn]
              obtain ⟨d, ds, hds⟩ := List.exists_cons_of_ne_nil (natChars_ne_nil n.toNat)
              have hd : d.isDigit = true := natChars_digits n.toNat d (by rw [hds]; simp)
              obtain ⟨o1, o2, o3, o4, o5, o6, o7⟩ := isDigit_ne_openers hd
              rw [hser, hds, List.cons_append, parseVal.eq_def]
              simp only [if_neg o1, if_neg o2, if_neg o3, if_neg o4, if_neg o5,
                if_neg o6, if_neg o7, hd, if_pos rfl, if_true]
              have hfull : d :: (ds ++ rest) = natChars n.toNat ++ rest := by
                rw [hds]; simp
              rw [hfull]
              have hsplit := takeWhile_append_split (p := Char.isDigit)
                (natChars_digits n.toNat) hrest
              simp only [hsplit.1, hsplit.2]
              have hval : (parseNat (natChars n.toNat) : Int) = n := by
                rw [parseNat_natChars]; omega
              simp [hval]
        | arr l =>
            cases l with
            | nil =>
                show parseVal (f + 1) ('[' :: ']' :: rest) = _
                rw [parseVal.eq_def]; simp
            | cons x xs =>
                have hser :
                    serVal (.arr (.cons x xs)) ++ rest =
                      '[' :: (serVal x ++ serItems xs ++ ']' :: rest) := by
                  simp [serVal]
                rw [hser, parseVal.eq_def]
                obtain ⟨sx0, sxr, hsx⟩ := List.exists_cons_of_ne_nil (serVal_ne_nil x)
                have hhead :
                    (serVal x ++ serItems xs ++ ']' :: rest).head? = some sx0 := by
                  rw [hsx]; simp
                have hne0 := (serVal_head_ne x sx0 (by rw [hsx]; simp)).1
                have hcond :
                    ((serVal x ++ serItems xs ++ ']' :: rest).head? = some ']') = False := by
                  simp only [hhead, Option.some.injEq, eq_iff_iff, iff_false]
                  exact hne0
                simp only [hcond, if_false]
                have hblen : (serVal x ++ serItems xs).length + 1 ≤ f := by
                  have h2 : (serVal (.arr (.cons x xs))).length =
                      (serVal x ++ serItems xs).length + 2 := by
                    simp [serVal]; omega
                  omega
                rw [ihl x xs rest hblen]
                rfl
        | obj l =>
            cases l with
            | nil =>
                show parseVal (f + 1) ('\x7b' :: '\x7d' :: rest) = _
                rw [parseVal.eq_def]; simp
            | cons k v ps =>
                have hser :
                    serVal (.obj (.cons k v ps)) ++ rest =
                      '\x7b' ::
                        ('"' :: (escBody k.data ++ '"' :: ':' :: serVal v) ++
                          serProps ps ++ '\x7d' :: rest) := by
                  simp [serVal]
                rw [hser, parseVal.eq_def]
                have hcond :
                    ((('"' : Char) :: (escBody k.data ++ '"' :: ':' :: serVal v) ++
                        serProps ps ++ '\x7d' :: rest).head? = some '\x7d') = False := by
                  simp
                simp only [hcond, if_false]
                have hblen :
                    ('"' :: (escBody k.data ++ '"' :: ':' :: serVal v) ++
                      serProps ps).length + 1 ≤ f := by
                  have h2 : (serVal (.obj (.cons k v ps))).length =
                      ('"' :: (escBody k.data ++ '"' :: ':' :: serVal v) ++
                        serProps ps).length + 2 := by
                    simp [serVal]; omega
                  omega
                rw [ihp k v ps rest hblen]
                rfl
      · -- array tails
        intro x xs rest hb
        have hxpos := List.length_pos.mpr (serVal_ne_nil x)
        rw [List.append_assoc, parseItems_succ]
        have hnd : headNotDigit (serItems xs ++ ']' :: rest) := by
          intro c hc
          cases xs with
          | nil =>
              simp only [serItems, List.nil_append, List.head?_cons,
                Option.some.injEq] at hc
              exact hc ▸ (by decide)
          | cons y ys =>
              simp only [serItems, List.cons_append, List.head?_cons,
                Option.some.injEq] at hc
              exact hc ▸ (by decide)
        have hxlen : (serVal x).length ≤ f := by
          simp only [List.length_append] at hb; omega
        rw [ihv x (serItems xs ++ ']' :: rest) hxlen hnd]
        simp only [Option.bind_eq_bind, Option.some_bind]
        cases xs with
        | nil => simp [serItems]
        | cons y ys =>
            have hshape2 :
                serItems (.cons y ys) ++ ']' :: rest =
                  ',' :: (serVal y ++ serItems ys ++ ']' :: rest) := by
              simp [serItems]
            rw [hshape2]
            have hblen : (serVal y ++ serItems ys).length + 1 ≤ f := by
              have hit : (serItems (JsonList.cons y ys)).length =
                  (serVal y ++ serItems ys).length + 1 := by
                simp [serItems]
              simp only [List.length_append] at hb hit ⊢
              omega
            have hfin := ihl y ys rest hblen
            simp only [hfin]
            rfl
      · -- property tails
        intro k v ps rest hb
        obtain ⟨kd⟩ := k
        have hvpos := List.length_pos.mpr (serVal_ne_nil v)
        have hshape :
            '"' :: (escBody (String.data ⟨kd⟩) ++ '"' :: ':' :: serVal v) ++
              serProps ps ++ '\x7d' :: rest =
            '"' :: (escBody kd ++
              '"' :: (':' :: (serVal v ++ (serProps ps ++ '\x7d' :: rest)))) := by
          simp
        rw [hshape, parseProps_succ_quote]
        rw [parseStrBody_escBody kd (':' :: (serVal v ++ (serProps ps ++ '\x7d' :: rest)))]
        have hnd : headNotDigit (serProps ps ++ '\x7d' :: rest) := by
          intro c hc
          cases ps with
          | nil =>
              simp only [serProps, List.nil_append, List.head?_cons,
                Option.some.injEq] at hc
              exact hc ▸ (by decide)
          | cons k2 v2 ps2 =>
              simp only [serProps, List.cons_append, List.head?_cons,
                Option.some.injEq] at hc
              exact hc ▸ (by decide)
        have hvlen : (serVal v).length ≤ f := by
          simp only [List.length_append, List.length_cons, List.length_append] at hb
          omega
        simp only [Option.bind_eq_bind, Option.some_bind]
        rw [ihv v (serProps ps ++ '\x7d' :: rest) hvlen hnd]
        simp only [Option.bind_eq_bind, Option.some_bind]
        cases ps with
        | nil => simp [serProps]
        | cons k2 v2 ps2 =>
            have hshape2 :
                serProps (.cons k2 v2 ps2) ++ '\x7d' :: rest =
                  ',' :: ('"' :: (escBody k2.data ++ '"' :: ':' :: serVal v2) ++
                    serProps ps2 ++ '\x7d' :: rest) := by
              simp [serProps]
            rw [hshape2]
            have hblen :
                ('"' :: (escBody k2.data ++ '"' :: ':' :: serVal v2) ++
                  serProps ps2).length + 1 ≤ f := by
              have hpt : (serProps (JsonProps.cons k2 v2 ps2)).length =
                  ('"' :: (escBody k2.data ++ '"' :: ':' :: serVal v2) ++
                    serProps ps2).length + 1 := by
                simp [serProps]
              simp only [List.length_append, List.length_cons] at hb hpt ⊢
              omega
            have hfin := ihp k2 v2 ps2 rest hblen
            simp only [hfin]
            rfl

/-- The serialize/parse round trip: `JSON.parse(JSON.stringify(doc))`
recovers `doc` for every JSON document. -/
theorem jsonParse_jsonStringify (j : Json) : jsonParse (jsonStringify j) = some j := by
  unfold jsonParse jsonStringify
  have hdata : (String.mk (serVal j)).data = serVal j := rfl
  rw [hdata]
  have h := (parse_inverts_ser ((serVal j).length + 1)).1 j []
    (by omega) headNotDigit_nil
  rw [List.append_nil] at h
  rw [h]

/-! ## The database state

One row structure per SQLite table created by `initializeTables`, and a `DB`
record holding the table contents (in rowid order: inserts append at the
end).  `banned`/`disabled` are stored as the INTEGER `0`/`1` the code writes;
nullable TEXT columns are `Option String`.  `DocRow.key` models the
`record_key`/`favorite_key`/`config_key` column of the three document
tables, which all share the shape `(username, key, data)` with a UNIQUE
constraint on `(username, key)`. -/

/-- Row of the `users` table. -/
structure UserRow where
  username : String
  password : String
  role : String
  banned : Nat
  tags : Option String
  enabled_apis : Option String
deriving DecidableEq, Repr

/-- Row of the `play_records` / `favorites` / `skip_configs` tables. -/
structure DocRow where
  username : String
  key : String
  data : String
deriving DecidableEq, Repr

/-- Row of the `search_history` table. -/
structure SHRow where
  id : Nat
  username : String
  keyword : String
  created_at : Nat
deriving DecidableEq, Repr

/-- Row of the `admin_config` / `user_groups` key-value tables. -/
structure KVRow where
  name : String
  value : String
deriving DecidableEq, Repr

/-- Row of the `api_sources` table. -/
structure ApiSourceRow where
  key : String
  name : String
  api : String
  detail : Option String
  from_source : String
  disabled : Nat
deriving DecidableEq, Repr

/-- Row of the `live_sources` table. -/
structure LiveSourceRow where
  key : String
  name : String
  url : String
  user_agent : Option String
  epg : Option String
  from_source : String
  channel_number : Option Int
  disabled : Nat
deriving DecidableEq, Repr

/-- Row of the `categories` table. -/
structure CategoryRow where
  query : String
  type : String
  name : Option String
  from_source : String
  disabled : Nat
deriving DecidableEq, Repr

/-- The SQLite database state.  `nextShId` is the AUTOINCREMENT counter of
the `search_history` table. -/
structure DB where
  users : List UserRow
  play_records : List DocRow
  favorites : List DocRow
  search_history : List SHRow
  skip_configs : List DocRow
  admin_config : List KVRow
  user_groups : List KVRow
  api_sources : List ApiSourceRow
  live_sources : List LiveSourceRow
  categories : List CategoryRow
  nextShId : Nat
deriving DecidableEq, Repr

/-- The empty database (all tables empty). -/
def DB.empty : DB :=
  ⟨[], [], [], [], [], [], [], [], [], [], 0⟩

/-! ## The retry wrapper (`withRetry`) -/

/-- A JavaScript error as inspected by `withRetry`: `err.code` and
`err.message` may each be absent. -/
structure SqlError where
  code : Option String
  message : Option String
deriving DecidableEq, Repr

/-- Whether `needle` occurs as a leading segment of `hay`. -/
def leadsWith : List Char → List Char → Bool
  | [], _ => true
  | _, [] => false
  | x :: xs, y :: ys => x == y && leadsWith xs ys

/-- Whether `needle` occurs as a contiguous segment of `hay`. -/
def containsSeg (needle : List Char) : List Char → Bool
  | [] => needle.isEmpty
  | c :: rest => leadsWith needle (c :: rest) || containsSeg needle rest

/-- Model of JavaScript `hay.includes(needle)`. -/
def strIncludes (hay needle : String) : Bool := containsSeg needle.data hay.data

/-- The contention check of `withRetry`: `err.code === 'SQLITE_BUSY' ||
err.code === 'SQLITE_LOCKED' || err.message?.includes('database is locked')`. -/
def isLockError (e : SqlError) : Bool :=
  e.code == some "SQLITE_BUSY" || e.code == some "SQLITE_LOCKED" ||
    (match e.message with
     | some m => strIncludes m "database is locked"
     | none => false)

/-- The error thrown after the retry loop exits without returning
(`throw new Error('Max retries exceeded')`). -/
def maxRetriesError : SqlError := ⟨none, some "Max retries exceeded"⟩

/-- The retry loop of `withRetry`, iteration index `i`, with
`rem = maxRetries - i` iterations remaining.  The operation is modelled as a
function from the attempt index to its outcome.  The result records the
outcome, the number of attempts actually executed, and the list of sleep
durations performed (in ms). -/
def retryAux (op : Nat → Except SqlError α) (maxRetries : Nat) :
    Nat → Nat → Except SqlError α × Nat × List Nat
  | i, 0 => (.error maxRetriesError, i, [])
  | i, rem + 1 =>
      match op i with
      | .ok v => (.ok v, i + 1, [])
      | .error e =>
          if isLockError e && !(i == maxRetries - 1) then
            let r := retryAux op maxRetries (i + 1) rem
            (r.1, r.2.1, 100 * (i + 1) :: r.2.2)
          else (.error e, i + 1, [])

/-- Model of `withRetry(operation, maxRetries = 3)`. -/
def withRetry (op : Nat → Except SqlError α) (maxRetries : Nat := 3) :
    Except SqlError α × Nat × List Nat :=
  retryAux op maxRetries 0 maxRetries

/-! ## Repository operations of `SqliteStorage`

Statement-level model: a `SELECT ... WHERE` is `List.find?`/`List.filter`
over the table in rowid order; `INSERT OR REPLACE` removes the rows hitting
the unique constraint and appends the new row; `DELETE` filters.  Pure,
non-throwing operations are modelled as functions on `DB` (running such an
operation under `withRetry` returns its value on the first attempt);
operations that can throw return `Except`.  A failed `JSON.parse` on read is
the error `"SyntaxError"`, never an absent value. -/

namespace SqliteStorage

/-- `SEARCH_HISTORY_LIMIT` from the source. -/
def SEARCH_HISTORY_LIMIT : Nat := 20

/-- `getPlayRecord`: look up one row and `JSON.parse` its `data`. -/
def getPlayRecord (db : DB) (userName key : String) : Except String (Option Json) :=
  match db.play_records.find? (fun r => r.username == userName && r.key == key) with
  | none => .ok none
  | some row =>
      match jsonParse row.data with
      | some j => .ok (some j)
      | none => .error "SyntaxError"

/-- `setPlayRecord`: `INSERT OR REPLACE` of the stringified record. -/
def setPlayRecord (db : DB) (userName key : String) (record : Json) : DB :=
  { db with
    play_records :=
      db.play_records.filter (fun r => !(r.username == userName && r.key == key)) ++
        [⟨userName, key, jsonStringify record⟩] }

/-- `getAllPlayRecords`: all of one user's rows as a key-to-document map. -/
def getAllPlayRecords (db : DB) (userName : String) :
    Except String (List (String × Json)) :=
  (db.play_records.filter (fun r => r.username == userName)).mapM fun r =>
    match jsonParse r.data with
    | some j => .ok (r.key, j)
    | none => .error "SyntaxError"

/-- `deletePlayRecord`. -/
def deletePlayRecord (db : DB) (userName key : String) : DB :=
  { db with
    play_records :=
      db.play_records.filter (fun r => !(r.username == userName && r.key == key)) }

/-- `getFavorite`. -/
def getFavorite (db : DB) (userName key : String) : Except String (Option Json) :=
  match db.favorites.find? (fun r => r.username == userName && r.key == key) with
  | none => .ok none
  | some row =>
      match jsonParse row.data with
      | some j => .ok (some j)
      | none => .error "SyntaxError"

/-- `setFavorite`. -/
def setFavorite (db : DB) (userName key : String) (favorite : Json) : DB :=
  { db with
    favorites :=
      db.favorites.filter (fun r => !(r.username == userName && r.key == key)) ++
        [⟨userName, key, jsonStringify favorite⟩] }

/-- `getAllFavorites`. -/
def getAllFavorites (db : DB) (userName : String) :
    Except String (List (String × Json)) :=
  (db.favorites.filter (fun r => r.username == userName)).mapM fun r =>
    match jsonParse r.data with
    | some j => .ok (r.key, j)
    | none => .error "SyntaxError"

/-- `deleteFavorite`. -/
def deleteFavorite (db : DB) (userName key : String) : DB :=
  { db with
    favorites :=
      db.favorites.filter (fun r => !(r.username == userName && r.key == key)) }

/-- The error raised by SQLite when a plain `INSERT` hits the `users`
primary key. -/
def uniqueViolation : SqlError :=
  ⟨some "SQLITE_CONSTRAINT_PRIMARYKEY", some "UNIQUE constraint failed: users.username"⟩

/-- `registerUser`: plain `INSERT` with role `user`, banned `0`; the
`username` primary key makes a duplicate insert throw a constraint error
and leave the database unchanged. -/
def registerUser (db : DB) (userName password : String) : Except SqlError DB :=
  if db.users.any (fun r => r.username == userName) then .error uniqueViolation
  else .ok { db with users := db.users ++ [⟨userName, password, "user", 0, none, none⟩] }

/-- `verifyUser`: exact string comparison against the stored password;
`false` for a missing user. -/
def verifyUser (db : DB) (userName password : String) : Bool :=
  match db.users.find? (fun r => r.username == userName) with
  | none => false
  | some row => row.password == password

/-- `checkUserExist`. -/
def checkUserExist (db : DB) (userName : String) : Bool :=
  (db.users.find? (fun r => r.username == userName)).isSome

/-- `changePassword`: `UPDATE users SET password = ? WHERE username = ?`. -/
def changePassword (db : DB) (userName newPassword : String) : DB :=
  { db with
    users := db.users.map fun r =>
      if r.username == userName then { r with password := newPassword } else r }

/-- `deleteUser`: delete the user row; the `ON DELETE CASCADE` foreign keys
declared in `initializeTables` delete all rows owned by the user in
`play_records`, `favorites`, `search_history` and `skip_configs`. -/
def deleteUser (db : DB) (userName : String) : DB :=
  { db with
    users := db.users.filter (fun r => !(r.username == userName))
    play_records := db.play_records.filter (fun r => !(r.username == userName))
    favorites := db.favorites.filter (fun r => !(r.username == userName))
    search_history := db.search_history.filter (fun r => !(r.username == userName))
    skip_configs := db.skip_configs.filter (fun r => !(r.username == userName)) }

/-- Strict "more recent" order on history rows: later creation time first;
equal timestamps are refined deterministically by rowid (SQL leaves the tie
order unspecified; the claims proved below only use states without ties). -/
def moreRecent (a b : SHRow) : Bool :=
  b.created_at < a.created_at || (b.created_at == a.created_at && b.id < a.id)

/-- Insert into a list sorted by `moreRecent`. -/
def insertDesc (a : SHRow) : List SHRow → List SHRow
  | [] => [a]
  | b :: l => if moreRecent a b then a :: b :: l else b :: insertDesc a l

/-- Sort by `ORDER BY created_at DESC` (refined by rowid on ties). -/
def sortDesc : List SHRow → List SHRow
  | [] => []
  | a :: l => insertDesc a (sortDesc l)

/-- `getSearchHistory`: the user's keywords, newest first, `LIMIT 20`. -/
def getSearchHistory (db : DB) (userName : String) : List String :=
  ((sortDesc (db.search_history.filter (fun r => r.username == userName))).take
      SEARCH_HISTORY_LIMIT).map (·.keyword)

/-- `addSearchHistory` at timestamp `now`: delete the exact
`(username, keyword)` rows, insert a fresh row, then delete every row of the
user whose id is not among the 20 most recent. -/
def addSearchHistory (db : DB) (userName keyword : String) (now : Nat) : DB :=
  let afterDelete :=
    db.search_history.filter (fun r => !(r.username == userName && r.keyword == keyword))
  let inserted := afterDelete ++ [⟨db.nextShId, userName, keyword, now⟩]
  let keep :=
    ((sortDesc (inserted.filter (fun r => r.username == userName))).take
        SEARCH_HISTORY_LIMIT).map (·.id)
  { db with
    search_history :=
      inserted.filter (fun r => !(r.username == userName) || keep.contains r.id)
    nextShId := db.nextShId + 1 }

/-- `deleteSearchHistory`: one keyword's rows if a truthy keyword is given,
else all rows of the user (JavaScript truthiness: an empty-string keyword
also clears everything). -/
def deleteSearchHistory (db : DB) (userName : String) (keyword : Option String) : DB :=
  match keyword with
  | some kw =>
      if kw != "" then
        { db with
          search_history := db.search_history.filter
            (fun r => !(r.username == userName && r.keyword == kw)) }
      else
        { db with
          search_history := db.search_history.filter (fun r => !(r.username == userName)) }
  | none =>
      { db with
        search_history := db.search_history.filter (fun r => !(r.username == userName)) }

/-- `skipConfigKey`: the composite key `source + "+" + id`. -/
def skipConfigKey (source id : String) : String := source ++ "+" ++ id

/-- `getSkipConfig`. -/
def getSkipConfig (db : DB) (userName source id : String) : Except String (Option Json) :=
  let key := skipConfigKey source id
  match db.skip_configs.find? (fun r => r.username == userName && r.key == key) with
  | none => .ok none
  | some row =>
      match jsonParse row.data with
      | some j => .ok (some j)
      | none => .error "SyntaxError"

/-- `setSkipConfig`. -/
def setSkipConfig (db : DB) (userName source id : String) (config : Json) : DB :=
  let key := skipConfigKey source id
  { db with
    skip_configs :=
      db.skip_configs.filter (fun r => !(r.username == userName && r.key == key)) ++
        [⟨userName, key, jsonStringify config⟩] }

/-- `deleteSkipConfig`. -/
def deleteSkipConfig (db : DB) (userName source id : String) : DB :=
  let key := skipConfigKey source id
  { db with
    skip_configs :=
      db.skip_configs.filter (fun r => !(r.username == userName && r.key == key)) }

/-- `getAllSkipConfigs`. -/
def getAllSkipConfigs (db : DB) (userName : String) :
    Except String (List (String × Json)) :=
  (db.skip_configs.filter (fun r => r.username == userName)).mapM fun r =>
    match jsonParse r.data with
    | some j => .ok (r.key, j)
    | none => .error "SyntaxError"

end SqliteStorage

/-! ### Users / user groups / sources / categories (list repositories) -/

/-- JavaScript `s || d` on strings (an empty string is falsy). -/
def jsOrStr (s d : String) : String := if s == "" then d else s

/-- JavaScript `j || []` on a JSON value. -/
def jsonOrEmptyArr (j : Json) : Json := if jsTruthy j then j else .arr .nil

/-- JavaScript `x ? String(x) : undefined` on a nullable string column. -/
def optTruthy (o : Option String) : Option String :=
  match o with
  | some s => if s != "" then some s else none
  | none => none

/-- The user object assembled by `getAllUsers` (also the element type of
`AdminConfig.UserConfig.Users` and the input to `setAllUsers`; the input's
optional fields are handled by the JavaScript `||`-defaulting modelled in
`setAllUsers`).  `tags`/`enabledApis` hold whatever JSON the stored text
decoded to. -/
structure User where
  username : String
  password : Option String
  role : String
  banned : Bool
  tags : Json
  enabledApis : Json

/-- Decoding of one `users` row by `getAllUsers`: `role || 'user'`,
`Boolean(banned)`, and tolerant decoding of `tags`/`enabled_apis` — a parse
failure is caught and leaves the remaining fields at their `[]` default
(if `tags` fails, `enabled_apis` is never attempted). -/
def decodeUserRow (withPassword : Bool) (r : UserRow) : User :=
  let base : User :=
    { username := r.username
      password := if withPassword then some r.password else none
      role := jsOrStr r.role "user"
      banned := r.banned != 0
      tags := .arr .nil
      enabledApis := .arr .nil }
  match r.tags with
  | some t =>
      if t != "" then
        match jsonParse t with
        | none => base
        | some jt =>
            let b1 := { base with tags := jt }
            match r.enabled_apis with
            | some a =>
                if a != "" then
                  match jsonParse a with
                  | none => b1
                  | some ja => { b1 with enabledApis := ja }
                else b1
            | none => b1
      else
        match r.enabled_apis with
        | some a =>
            if a != "" then
              match jsonParse a with
              | none => base
              | some ja => { base with enabledApis := ja }
            else base
        | none => base
  | none =>
      match r.enabled_apis with
      | some a =>
          if a != "" then
            match jsonParse a with
            | none => base
            | some ja => { base with enabledApis := ja }
          else base
      | none => base

namespace SqliteStorage

/-- `getAllUsers`. -/
def getAllUsers (db : DB) (withPassword : Bool) : List User :=
  db.users.map (decodeUserRow withPassword)

/-- `setAllUsers`: for each input user run
`UPDATE users SET role, banned, tags, enabled_apis WHERE username = ?` —
update-only, never an insert; an input with no matching row does nothing. -/
def setAllUsers (db : DB) (users : List User) : DB :=
  { db with
    users := users.foldl
      (fun t u => t.map fun r =>
        if r.username == u.username then
          { r with
            role := jsOrStr u.role "user"
            banned := if u.banned then 1 else 0
            tags := some (jsonStringify (jsonOrEmptyArr u.tags))
            enabled_apis := some (jsonStringify (jsonOrEmptyArr u.enabledApis)) }
        else r)
      db.users }

end SqliteStorage

/-- A user group (tag), as read back by `getAllUserGroups`. -/
structure UserGroup where
  name : String
  enabledApis : Json

namespace SqliteStorage

/-- `getAllUserGroups`: the stored value is decoded tolerantly (a parse
failure is logged and yields `[]`). -/
def getAllUserGroups (db : DB) : List UserGroup :=
  db.user_groups.map fun r =>
    { name := r.name
      enabledApis :=
        match jsonParse r.value with
        | some j => j
        | none => .arr .nil }

/-- `setAllUserGroups`: `INSERT OR REPLACE` keyed by name. -/
def setAllUserGroups (db : DB) (groups : List UserGroup) : DB :=
  { db with
    user_groups := groups.foldl
      (fun t g =>
        t.filter (fun r => r.name != g.name) ++
          [⟨g.name, jsonStringify (jsonOrEmptyArr g.enabledApis)⟩])
      db.user_groups }

end SqliteStorage

/-- An API source, as read back by `getAllApiSources`. -/
structure ApiSource where
  key : String
  name : String
  api : String
  detail : Option String
  «from» : String
  disabled : Bool

/-- A live source, as read back by `getAllLiveSources`. -/
structure LiveSource where
  key : String
  name : String
  url : String
  ua : Option String
  epg : Option String
  «from» : String
  channelNumber : Option Int
  disabled : Bool

/-- A category, as read back by `getAllCategories`. -/
structure Category where
  query : String
  type : String
  name : Option String
  «from» : String
  disabled : Bool

namespace SqliteStorage

/-- `getAllApiSources` (`row.detail ? String(row.detail) : undefined`). -/
def getAllApiSources (db : DB) : List ApiSource :=
  db.api_sources.map fun r =>
    { key := r.key, name := r.name, api := r.api
      detail := optTruthy r.detail
      «from» := r.from_source
      disabled := r.disabled != 0 }

/-- `setAllApiSources`: `INSERT OR REPLACE` keyed by `key`. -/
def setAllApiSources (db : DB) (sources : List ApiSource) : DB :=
  { db with
    api_sources := sources.foldl
      (fun t s =>
        t.filter (fun r => r.key != s.key) ++
          [⟨s.key, s.name, s.api, s.detail, s.«from», if s.disabled then 1 else 0⟩])
      db.api_sources }

/-- `getAllLiveSources` (`row.channel_number ? Number(..) : undefined`: a
stored `0` reads back as absent). -/
def getAllLiveSources (db : DB) : List LiveSource :=
  db.live_sources.map fun r =>
    { key := r.key, name := r.name, url := r.url
      ua := optTruthy r.user_agent
      epg := optTruthy r.epg
      «from» := r.from_source
      channelNumber :=
        match r.channel_number with
        | some n => if n != 0 then some n else none
        | none => none
      disabled := r.disabled != 0 }

/-- `setAllLiveSources`: `INSERT OR REPLACE` keyed by `key`. -/
def setAllLiveSources (db : DB) (sources : List LiveSource) : DB :=
  { db with
    live_sources := sources.foldl
      (fun t s =>
        t.filter (fun r => r.key != s.key) ++
          [⟨s.key, s.name, s.url, s.ua, s.epg, s.«from», s.channelNumber,
            if s.disabled then 1 else 0⟩])
      db.live_sources }

/-- `getAllCategories`. -/
def getAllCategories (db : DB) : List Category :=
  db.categories.map fun r =>
    { query := r.query, type := r.type
      name := optTruthy r.name
      «from» := r.from_source
      disabled := r.disabled != 0 }

/-- `setAllCategories`: `INSERT OR REPLACE` keyed by `(query, type)`. -/
def setAllCategories (db : DB) (categories : List Category) : DB :=
  { db with
    categories := categories.foldl
      (fun t c =>
        t.filter (fun r => !(r.query == c.query && r.type == c.type)) ++
          [⟨c.query, c.type, c.name, c.«from», if c.disabled then 1 else 0⟩])
      db.categories }

end SqliteStorage

/-! ### The admin-config aggregator -/

/-- The assembled admin configuration.  `SiteConfig` and
`ConfigSubscribtion` are JSON documents (the code casts the decoded JSON
without validating); `Users`/`Tags` model `UserConfig.Users` and the
optional `UserConfig.Tags`; `LiveConfig` is optional as in the TypeScript
interface. -/
structure AdminConfig where
  ConfigSubscribtion : Json
  ConfigFile : String
  SiteConfig : Json
  Users : List User
  Tags : Option (List UserGroup)
  SourceConfig : List ApiSource
  CustomCategories : List Category
  LiveConfig : Option (List LiveSource)

/-- Default subscription descriptor built by `getAdminConfig`. -/
def defaultConfigSubscribtion : Json :=
  .obj (.cons "URL" (.str "")
    (.cons "AutoUpdate" (.bool false)
      (.cons "LastCheck" (.str "") .nil)))

/-- Accumulator for the key-value overlay loop of `getAdminConfig`. -/
structure KvAcc where
  cf : String
  sub : Json
  site : Json
  src : Json
  cat : Json
  live : Json

/-- One iteration of the `rows.forEach` overlay of `getAdminConfig`:
the six recognized keys are applied (five of them `JSON.parse`d — a parse
failure aborts the whole loop); any other key is skipped. -/
def applyKvRow (acc : KvAcc) (r : KVRow) : Option KvAcc :=
  if r.name == "config_file" then some { acc with cf := r.value }
  else if r.name == "config_subscription" then
    (jsonParse r.value).map fun j => { acc with sub := j }
  else if r.name == "site_config" then
    (jsonParse r.value).map fun j => { acc with site := j }
  else if r.name == "source_config" then
    (jsonParse r.value).map fun j => { acc with src := j }
  else if r.name == "custom_categories" then
    (jsonParse r.value).map fun j => { acc with cat := j }
  else if r.name == "live_config" then
    (jsonParse r.value).map fun j => { acc with live := j }
  else some acc

namespace SqliteStorage

/-- `getAdminConfig`: start from the hard-coded defaults (the env-derived
site settings are the parameter `defaultSiteConfig`), overlay the
`admin_config` key-value rows (`none` models the `catch` returning `null`
when a recognized row fails to decode), then replace the user, tag, source,
category and live-source collections wholesale from their tables. -/
def getAdminConfig (defaultSiteConfig : Json) (db : DB) : Option AdminConfig :=
  let acc0 : KvAcc :=
    { cf := "", sub := defaultConfigSubscribtion, site := defaultSiteConfig
      src := .arr .nil, cat := .arr .nil, live := .arr .nil }
  match db.admin_config.foldlM applyKvRow acc0 with
  | none => none
  | some acc =>
      some
        { ConfigSubscribtion := acc.sub
          ConfigFile := acc.cf
          SiteConfig := acc.site
          Users := getAllUsers db false
          Tags := some (getAllUserGroups db)
          SourceConfig := getAllApiSources db
          CustomCategories := getAllCategories db
          LiveConfig := some (getAllLiveSources db) }

/-- `INSERT OR REPLACE` into a key-value table. -/
def kvUpsert (rows : List KVRow) (name value : String) : List KVRow :=
  rows.filter (fun r => r.name != name) ++ [⟨name, value⟩]

/-- `setAdminConfig`: upsert the three settings rows when truthy, then push
each collection to its repository (users update-only; the others
insert-or-replace). -/
def setAdminConfig (db : DB) (config : AdminConfig) : DB :=
  let db1 :=
    if config.ConfigFile != "" then
      { db with admin_config := kvUpsert db.admin_config "config_file" config.ConfigFile }
    else db
  let db2 :=
    if jsTruthy config.ConfigSubscribtion then
      { db1 with
        admin_config :=
          kvUpsert db1.admin_config "config_subscription"
            (jsonStringify config.ConfigSubscribtion) }
    else db1
  let db3 :=
    if jsTruthy config.SiteConfig then
      { db2 with
        admin_config :=
          kvUpsert db2.admin_config "site_config" (jsonStringify config.SiteConfig) }
    else db2
  let db4 := setAllUsers db3 config.Users
  let db5 :=
    match config.Tags with
    | some tags => setAllUserGroups db4 tags
    | none => db4
  let db6 := setAllApiSources db5 config.SourceConfig
  let db7 := setAllCategories db6 config.CustomCategories
  match config.LiveConfig with
  | some live => setAllLiveSources db7 live
  | none => db7

end SqliteStorage

/-! ## Helper lemmas about the statement-level list operations -/

/-- `find?` over an upsert (`filter`-out-conflicts then append) returns the
fresh row when the fresh row matches. -/
theorem find?_upsert {α} (l : List α) (p : α → Bool) (a : α) (ha : p a = true) :
    (l.filter (fun x => !(p x)) ++ [a]).find? p = some a := by
  induction l with
  | nil => simp [List.find?, ha]
  | cons x l ih =>
      by_cases hx : p x
      · simp [List.filter_cons, hx, ih]
      · have hx' : p x = false := by simpa using hx
        simp [List.filter_cons, hx', List.find?_cons, ih]

/-- Filtering out rows that a search predicate can never match does not
change the result of `find?`. -/
theorem find?_filter_of_imp {α} (l : List α) (p q : α → Bool)
    (h : ∀ x, q x = true → p x = false) :
    (l.filter (fun x => !(p x))).find? q = l.find? q := by
  induction l with
  | nil => rfl
  | cons x l ih =>
      by_cases hq : q x
      · have hp := h x hq
        simp [List.filter_cons, hp, List.find?_cons, hq]
      · have hq' : q x = false := by simpa using hq
        by_cases hp : p x
        · simp [List.filter_cons, hp, List.find?_cons, hq', ih]
        · have hp' : p x = false := by simpa using hp
          simp [List.filter_cons, hp', List.find?_cons, hq', ih]

/-! ## C1: set/get round trip for play records and favorites -/

/-- C1: for every user `U`, key `K` and JSON document `doc`,
`setPlayRecord(U,K,doc)` followed by `getPlayRecord(U,K)` returns the
document unchanged, and likewise for `setFavorite`/`getFavorite`: the
document survives the stringify-on-write / parse-on-read round trip. -/
theorem set_get_roundtrip (db : DB) (u k : String) (doc : Json) :
    SqliteStorage.getPlayRecord (SqliteStorage.setPlayRecord db u k doc) u k =
      .ok (some doc) ∧
    SqliteStorage.getFavorite (SqliteStorage.setFavorite db u k doc) u k =
      .ok (some doc) := by
  constructor
  · unfold SqliteStorage.getPlayRecord SqliteStorage.setPlayRecord
    rw [find?_upsert _ _ _ (by simp)]
    simp [jsonParse_jsonStringify]
  · unfold SqliteStorage.getFavorite SqliteStorage.setFavorite
    rw [find?_upsert _ _ _ (by simp)]
    simp [jsonParse_jsonStringify]

/-! ## C9: the read-side cap on search history -/

/-- C9: in every state — reachable or not, even with more than 20 stored
rows for the user — `getSearchHistory` returns at most 20 keywords, because
the `LIMIT 20` is applied at read time. -/
theorem getSearchHistory_length_le (db : DB) (u : String) :
    (SqliteStorage.getSearchHistory db u).length ≤ 20 := by
  unfold SqliteStorage.getSearchHistory
  simp [SqliteStorage.SEARCH_HISTORY_LIMIT]

/-! ## C3: the retry wrapper -/

/-- C3: behaviour of `withRetry(op, 3)`.  A success returns immediately; a
non-contention error on the first attempt is raised immediately with no
retry and no sleep; contention errors are retried after sleeping
`100ms × attemptNumber` (`[100]`, then `[100, 200]`); an error on the third
(final) attempt — contention or not — is raised; and never more than 3
attempts are executed. -/
theorem withRetry_spec {α : Type} :
    (∀ (op : Nat → Except SqlError α) v, op 0 = .ok v →
      withRetry op 3 = (.ok v, 1, [])) ∧
    (∀ (op : Nat → Except SqlError α) e, op 0 = .error e → isLockError e = false →
      withRetry op 3 = (.error e, 1, [])) ∧
    (∀ (op : Nat → Except SqlError α) e0 v, op 0 = .error e0 → isLockError e0 = true →
      op 1 = .ok v → withRetry op 3 = (.ok v, 2, [100])) ∧
    (∀ (op : Nat → Except SqlError α) e0 e1, op 0 = .error e0 → isLockError e0 = true →
      op 1 = .error e1 → isLockError e1 = false →
      withRetry op 3 = (.error e1, 2, [100])) ∧
    (∀ (op : Nat → Except SqlError α) e0 e1 v, op 0 = .error e0 → isLockError e0 = true →
      op 1 = .error e1 → isLockError e1 = true → op 2 = .ok v →
      withRetry op 3 = (.ok v, 3, [100, 200])) ∧
    (∀ (op : Nat → Except SqlError α) e0 e1 e2, op 0 = .error e0 → isLockError e0 = true →
      op 1 = .error e1 → isLockError e1 = true → op 2 = .error e2 →
      withRetry op 3 = (.error e2, 3, [100, 200])) ∧
    (∀ op : Nat → Except SqlError α, (withRetry op 3).2.1 ≤ 3) := by
  refine ⟨?_, ?_, ?_, ?_, ?_, ?_, ?_⟩
  · intro op v h0
    simp [withRetry, retryAux, h0]
  · intro op e h0 hl
    simp [withRetry, retryAux, h0, hl]
  · intro op e0 v h0 hl0 h1
    simp [withRetry, retryAux, h0, hl0, h1]
  · intro op e0 e1 h0 hl0 h1 hl1
    simp [withRetry, retryAux, h0, hl0, h1, hl1]
  · intro op e0 e1 v h0 hl0 h1 hl1 h2
    simp [withRetry, retryAux, h0, hl0, h1, hl1, h2]
  · intro op e0 e1 e2 h0 hl0 h1 hl1 h2
    simp [withRetry, retryAux, h0, hl0, h1, hl1, h2]
  · intro op
    unfold withRetry
    rcases h0 : op 0 with e0 | v0
    · rcases h1 : op 1 with e1 | v1
      · rcases h2 : op 2 with e2 | v2
        · by_cases hl0 : isLockError e0 <;> by_cases hl1 : isLockError e1 <;>
            simp [retryAux, h0, h1, h2, hl0, hl1]
        · by_cases hl0 : isLockError e0 <;> by_cases hl1 : isLockError e1 <;>
            simp [retryAux, h0, h1, h2, hl0, hl1]
      · by_cases hl0 : isLockError e0 <;> simp [retryAux, h0, h1, hl0]
    · simp [retryAux, h0]

/-- Witness for C3: a concrete operation that always fails with
`SQLITE_BUSY` exhausts the three attempts, sleeping 100 then 200 ms. -/
theorem withRetry_spec_witness :
    withRetry (α := Unit) (fun _ => .error ⟨some "SQLITE_BUSY", none⟩) 3 =
      (.error ⟨some "SQLITE_BUSY", none⟩, 3, [100, 200]) :=
  withRetry_spec.2.2.2.2.2.1 (fun _ => .error ⟨some "SQLITE_BUSY", none⟩)
    ⟨some "SQLITE_BUSY", none⟩ ⟨some "SQLITE_BUSY", none⟩ ⟨some "SQLITE_BUSY", none⟩
    rfl (by decide) rfl (by decide) rfl

/-! ## C5: duplicate registration -/

/-- The unique-constraint error is not a contention error. -/
theorem uniqueViolation_not_lock : isLockError SqliteStorage.uniqueViolation = false := by
  decide

/-- C5: after a successful `registerUser(U, p1)`, a second
`registerUser(U, p2)` fails with the SQLite unique-constraint error exactly
as thrown (not converted); that error is not a contention error, so
`withRetry` raises it on the first attempt without retrying or sleeping; and
the stored password is still `p1` (`verifyUser` accepts it). -/
theorem registerUser_duplicate (db db1 : DB) (u p1 p2 : String)
    (h1 : SqliteStorage.registerUser db u p1 = .ok db1) :
    SqliteStorage.registerUser db1 u p2 = .error SqliteStorage.uniqueViolation ∧
    isLockError SqliteStorage.uniqueViolation = false ∧
    withRetry (fun _ => SqliteStorage.registerUser db1 u p2) 3 =
      (.error SqliteStorage.uniqueViolation, 1, []) ∧
    SqliteStorage.verifyUser db1 u p1 = true := by
  unfold SqliteStorage.registerUser at h1
  by_cases hex : db.users.any (fun r => r.username == u)
  · rw [if_pos hex] at h1; cases h1
  · rw [if_neg hex] at h1
    have hdb1 : db1 = { db with users := db.users ++ [⟨u, p1, "user", 0, none, none⟩] } := by
      cases h1; rfl
    have hall : ∀ r ∈ db.users, (r.username == u) = false := by
      intro r hr
      by_cases hru : r.username == u
      · exact absurd (List.any_eq_true.mpr ⟨r, hr, hru⟩) hex
      · simpa using hru
    have hmem : db1.users.any (fun r => r.username == u) = true := by
      rw [hdb1]; simp
    have hreg2 : SqliteStorage.registerUser db1 u p2 =
        .error SqliteStorage.uniqueViolation := by
      unfold SqliteStorage.registerUser
      rw [if_pos hmem]
    constructor
    · exact hreg2
    constructor
    · exact uniqueViolation_not_lock
    constructor
    · simp [withRetry, retryAux, hreg2, uniqueViolation_not_lock]
    · unfold SqliteStorage.verifyUser
      rw [hdb1]
      simp only [List.find?_append]
      have hnone : db.users.find? (fun r => r.username == u) = none := by
        rw [List.find?_eq_none]
        intro r hr
        simp [hall r hr]
      rw [hnone]
      simp [List.find?]

/-- Witness for C5 at a concrete database: register `alice` twice. -/
theorem registerUser_duplicate_witness :
    SqliteStorage.registerUser
        { DB.empty with users := [⟨"alice", "pw1", "user", 0, none, none⟩] }
        "alice" "pw2" = .error SqliteStorage.uniqueViolation ∧
    isLockError SqliteStorage.uniqueViolation = false ∧
    withRetry (fun _ => SqliteStorage.registerUser
        { DB.empty with users := [⟨"alice", "pw1", "user", 0, none, none⟩] }
        "alice" "pw2") 3 =
      (.error SqliteStorage.uniqueViolation, 1, []) ∧
    SqliteStorage.verifyUser
        { DB.empty with users := [⟨"alice", "pw1", "user", 0, none, none⟩] }
        "alice" "pw1" = true :=
  registerUser_duplicate DB.empty
    { DB.empty with users := [⟨"alice", "pw1", "user", 0, none, none⟩] }
    "alice" "pw1" "pw2" rfl

/-! ## C4: cascading user deletion -/

/-- Deleting all rows with a given key leaves nothing with that key. -/
theorem filter_erase_self {α} (l : List α) (f : α → String) (u : String) :
    (l.filter (fun r => !(f r == u))).filter (fun r => f r == u) = [] := by
  rw [List.filter_filter]
  have : ∀ x ∈ l, ((f x == u) && !(f x == u)) = false := by
    intro x _
    by_cases h : f x == u <;> simp [h]
  rw [List.filter_congr this]
  simp

/-- Deleting all rows with key `u` does not change the rows with a
different key `v`. -/
theorem filter_erase_other {α} (l : List α) (f : α → String) (u v : String)
    (hvu : v ≠ u) :
    (l.filter (fun r => !(f r == u))).filter (fun r => f r == v) =
      l.filter (fun r => f r == v) := by
  rw [List.filter_filter]
  apply List.filter_congr
  intro x _
  by_cases h : f x == v
  · have hfv : f x = v := by simpa using h
    simp [h, hfv, hvu]
  · simp [h]

/-- C4: `deleteUser(U)` removes `U`'s user row and cascades to all play
records, favorites, search-history rows and skip configs owned by `U`, so
the four bulk reads return empty afterwards, while every other user's rows
(and reads) are untouched. -/
theorem deleteUser_cascade (db : DB) (u : String) :
    ((SqliteStorage.deleteUser db u).users.filter (fun r => r.username == u) = [] ∧
     SqliteStorage.getAllPlayRecords (SqliteStorage.deleteUser db u) u = .ok [] ∧
     SqliteStorage.getAllFavorites (SqliteStorage.deleteUser db u) u = .ok [] ∧
     SqliteStorage.getSearchHistory (SqliteStorage.deleteUser db u) u = [] ∧
     SqliteStorage.getAllSkipConfigs (SqliteStorage.deleteUser db u) u = .ok []) ∧
    ∀ v, v ≠ u →
      ((SqliteStorage.deleteUser db u).users.filter (fun r => r.username == v) =
          db.users.filter (fun r => r.username == v) ∧
       SqliteStorage.getAllPlayRecords (SqliteStorage.deleteUser db u) v =
          SqliteStorage.getAllPlayRecords db v ∧
       SqliteStorage.getAllFavorites (SqliteStorage.deleteUser db u) v =
          SqliteStorage.getAllFavorites db v ∧
       SqliteStorage.getSearchHistory (SqliteStorage.deleteUser db u) v =
          SqliteStorage.getSearchHistory db v ∧
       SqliteStorage.getAllSkipConfigs (SqliteStorage.deleteUser db u) v =
          SqliteStorage.getAllSkipConfigs db v) := by
  constructor
  · refine ⟨?_, ?_, ?_, ?_, ?_⟩
    · exact filter_erase_self db.users (·.username) u
    · unfold SqliteStorage.getAllPlayRecords SqliteStorage.deleteUser
      rw [filter_erase_self db.play_records (·.username) u]
      rfl
    · unfold SqliteStorage.getAllFavorites SqliteStorage.deleteUser
      rw [filter_erase_self db.favorites (·.username) u]
      rfl
    · unfold SqliteStorage.getSearchHistory SqliteStorage.deleteUser
      rw [filter_erase_self db.search_history (·.username) u]
      rfl
    · unfold SqliteStorage.getAllSkipConfigs SqliteStorage.deleteUser
      rw [filter_erase_self db.skip_configs (·.username) u]
      rfl
  · intro v hvu
    refine ⟨?_, ?_, ?_, ?_, ?_⟩
    · exact filter_erase_other db.users (·.username) u v hvu
    · unfold SqliteStorage.getAllPlayRecords SqliteStorage.deleteUser
      rw [filter_erase_other db.play_records (·.username) u v hvu]
    · unfold SqliteStorage.getAllFavorites SqliteStorage.deleteUser
      rw [filter_erase_other db.favorites (·.username) u v hvu]
    · unfold SqliteStorage.getSearchHistory SqliteStorage.deleteUser
      rw [filter_erase_other db.search_history (·.username) u v hvu]
    · unfold SqliteStorage.getAllSkipConfigs SqliteStorage.deleteUser
      rw [filter_erase_other db.skip_configs (·.username) u v hvu]

/-- A small two-user database used to instantiate the C4 theorem. -/
def dbTwoUsers : DB :=
  { DB.empty with
    users := [⟨"alice", "pa", "user", 0, none, none⟩, ⟨"bob", "pb", "user", 0, none, none⟩]
    play_records := [⟨"alice", "k1", "1"⟩, ⟨"bob", "k2", "2"⟩]
    favorites := [⟨"alice", "f1", "3"⟩]
    search_history := [⟨1, "alice", "cats", 10⟩, ⟨2, "bob", "dogs", 11⟩]
    skip_configs := [⟨"bob", "s+e", "4"⟩]
    nextShId := 3 }

/-- Witness for C4 at `dbTwoUsers`: deleting `alice` empties her reads and
leaves `bob`'s reads unchanged. -/
theorem deleteUser_cascade_witness :
    SqliteStorage.getAllPlayRecords (SqliteStorage.deleteUser dbTwoUsers "alice") "alice" =
      .ok [] ∧
    SqliteStorage.getAllPlayRecords (SqliteStorage.deleteUser dbTwoUsers "alice") "bob" =
      SqliteStorage.getAllPlayRecords dbTwoUsers "bob" ∧
    SqliteStorage.getSearchHistory (SqliteStorage.deleteUser dbTwoUsers "alice") "bob" =
      SqliteStorage.getSearchHistory dbTwoUsers "bob" :=
  ⟨(deleteUser_cascade dbTwoUsers "alice").1.2.1,
   ((deleteUser_cascade dbTwoUsers "alice").2 "bob" (by decide)).2.1,
   ((deleteUser_cascade dbTwoUsers "alice").2 "bob" (by decide)).2.2.2.1⟩

/-! ## C8: the composite skip-config key -/

/-- Concatenation around a `'+'` separator is injective when neither left
part contains `'+'`. -/
theorem plus_concat_inj (a : List Char) :
    ∀ (c : List Char) (b d : List Char), (∀ x ∈ a, x ≠ '+') → (∀ x ∈ c, x ≠ '+') →
      (a ++ '+' :: b = c ++ '+' :: d ↔ a = c ∧ b = d) := by
  induction a with
  | nil =>
      intro c b d _ hc
      cases c with
      | nil => simp
      | cons y ys =>
          simp only [List.nil_append, List.cons_append, List.cons_eq_cons]
          constructor
          · rintro ⟨hy, -⟩
            exact absurd hy.symm (hc y (by simp))
          · rintro ⟨h, -⟩
            exact absurd h (by simp)
  | cons x xs ih =>
      intro c b d ha hc
      cases c with
      | nil =>
          simp only [List.cons_append, List.nil_append, List.cons_eq_cons]
          constructor
          · rintro ⟨hx, -⟩
            exact absurd hx (ha x (by simp))
          · rintro ⟨h, -⟩
            exact absurd h (by simp)
      | cons y ys =>
          simp only [List.cons_append, List.cons_eq_cons]
          rw [ih ys b d (fun z hz => ha z (by simp [hz])) (fun z hz => hc z (by simp [hz]))]
          exact and_assoc.symm

/-- C8: a value stored under `(source, id)` is retrievable via
`(source', id')` exactly when the two pairs concatenate to the same
composite key `source + "+" + id` (otherwise the read sees the old state);
and when neither source part contains a literal `'+'`, equal composite keys
force equal pairs, so e.g. `("src1","ep1")` is retrievable only via
`("src1","ep1")`. -/
theorem skipConfig_composite_key (db : DB) (u s1 i1 s2 i2 : String) (cfg : Json) :
    (SqliteStorage.getSkipConfig (SqliteStorage.setSkipConfig db u s1 i1 cfg) u s2 i2 =
      if SqliteStorage.skipConfigKey s2 i2 = SqliteStorage.skipConfigKey s1 i1 then
        .ok (some cfg)
      else SqliteStorage.getSkipConfig db u s2 i2) ∧
    ((∀ x ∈ s1.data, x ≠ '+') → (∀ x ∈ s2.data, x ≠ '+') →
      (SqliteStorage.skipConfigKey s1 i1 = SqliteStorage.skipConfigKey s2 i2 ↔
        s1 = s2 ∧ i1 = i2)) := by
  constructor
  · by_cases hk : SqliteStorage.skipConfigKey s2 i2 = SqliteStorage.skipConfigKey s1 i1
    · rw [if_pos hk]
      unfold SqliteStorage.getSkipConfig SqliteStorage.setSkipConfig
      dsimp only
      rw [hk]
      rw [find?_upsert _ _ _ (by simp)]
      simp [jsonParse_jsonStringify]
    · rw [if_neg hk]
      unfold SqliteStorage.getSkipConfig SqliteStorage.setSkipConfig
      dsimp only
      have himp : ∀ x : DocRow,
          (x.username == u && x.key == SqliteStorage.skipConfigKey s2 i2) = true →
          (x.username == u && x.key == SqliteStorage.skipConfigKey s1 i1) = false := by
        intro x hx
        simp only [Bool.and_eq_true, beq_iff_eq] at hx
        simp only [Bool.and_eq_false_iff, beq_eq_false_iff_ne]
        right
        rw [hx.2]
        exact hk
      rw [List.find?_append]
      rw [find?_filter_of_imp _ _ _ himp]
      have hrow : (([⟨u, SqliteStorage.skipConfigKey s1 i1, jsonStringify cfg⟩] :
          List DocRow).find?
            (fun r => r.username == u && r.key == SqliteStorage.skipConfigKey s2 i2)) =
          none := by
        have hne : (SqliteStorage.skipConfigKey s1 i1 ==
            SqliteStorage.skipConfigKey s2 i2) = false := by
          simp only [beq_eq_false_iff_ne, ne_eq]
          intro hx
          exact hk hx.symm
        simp [List.find?, hne]
      rw [hrow, Option.or_none]
  · intro h1 h2
    unfold SqliteStorage.skipConfigKey
    constructor
    · intro h
      have hdata : s1.data ++ '+' :: i1.data = s2.data ++ '+' :: i2.data := by
        have := congrArg String.data h
        simpa using this
      have := (plus_concat_inj s1.data s2.data i1.data i2.data h1 h2).mp hdata
      refine ⟨?_, ?_⟩
      · cases s1; cases s2; exact congrArg String.mk this.1
      · cases i1; cases i2; exact congrArg String.mk this.2
    · rintro ⟨rfl, rfl⟩; rfl

/-- Witness for C8: `("src1","ep1")` against the pair `("src","1+ep1")`,
which concatenates to a different key, and the plus-free uniqueness at
`("src1","ep1")` itself. -/
theorem skipConfig_composite_key_witness :
    (SqliteStorage.getSkipConfig
        (SqliteStorage.setSkipConfig DB.empty "u" "src1" "ep1" .null) "u" "src" "1+ep1" =
      if SqliteStorage.skipConfigKey "src" "1+ep1" = SqliteStorage.skipConfigKey "src1" "ep1"
      then .ok (some .null)
      else SqliteStorage.getSkipConfig DB.empty "u" "src" "1+ep1") ∧
    (SqliteStorage.skipConfigKey "src1" "ep1" = SqliteStorage.skipConfigKey "src2" "ep2" ↔
      "src1" = "src2" ∧ ("ep1" : String) = "ep2") :=
  ⟨(skipConfig_composite_key DB.empty "u" "src1" "ep1" "src" "1+ep1" .null).1,
   (skipConfig_composite_key DB.empty "u" "src1" "ep1" "src2" "ep2" .null).2
     (by decide) (by decide)⟩

/-! ## C10: `setAllUsers` never touches usernames or passwords -/

/-- Folding per-element list rewrites over a list preserves any projection
that each rewrite preserves. -/
theorem foldl_map_proj {α β γ} (g : β → α → α) (f : α → γ)
    (hp : ∀ b a, f (g b a) = f a) :
    ∀ (us : List β) (t : List α),
      ((us.foldl (fun t u => t.map (g u)) t).map f) = t.map f := by
  intro us
  induction us with
  | nil => intro t; rfl
  | cons u us ih =>
      intro t
      rw [List.foldl_cons, ih (t.map (g u)), List.map_map]
      apply List.map_congr_left
      intro a _
      exact hp u a

/-- C10: `setAllUsers` (and therefore the user-list part of
`setAdminConfig`) maps each stored row in place, changing only role,
banned, tags and enabled sources: the stored `(username, password)` pairs —
hence the set of usernames and every password — are identical before and
after; and an input entry whose username matches no row is silently
skipped. -/
theorem setAllUsers_preserves_credentials :
    (∀ (db : DB) (us : List User),
      (SqliteStorage.setAllUsers db us).users.map (fun r => (r.username, r.password)) =
        db.users.map (fun r => (r.username, r.password))) ∧
    (∀ (db : DB) (cfg : AdminConfig),
      (SqliteStorage.setAdminConfig db cfg).users.map (fun r => (r.username, r.password)) =
        db.users.map (fun r => (r.username, r.password))) ∧
    (∀ (db : DB) (u : User) (us : List User),
      db.users.all (fun r => !(r.username == u.username)) = true →
      SqliteStorage.setAllUsers db (u :: us) = SqliteStorage.setAllUsers db us) := by
  have key : ∀ (us : List User) (t : List UserRow),
      ((us.foldl
          (fun t u => t.map fun r =>
            if r.username == u.username then
              { r with
                role := jsOrStr u.role "user"
                banned := if u.banned then 1 else 0
                tags := some (jsonStringify (jsonOrEmptyArr u.tags))
                enabled_apis := some (jsonStringify (jsonOrEmptyArr u.enabledApis)) }
            else r) t).map
        (fun r => (r.username, r.password))) = t.map (fun r => (r.username, r.password)) := by
    apply foldl_map_proj
    intro u r
    by_cases h : r.username == u.username <;> simp [h]
  refine ⟨?_, ?_, ?_⟩
  · intro db us
    exact key us db.users
  · intro db cfg
    unfold SqliteStorage.setAdminConfig
    cases cfg.Tags <;> cases cfg.LiveConfig <;>
      · simp only [SqliteStorage.setAllLiveSources, SqliteStorage.setAllCategories,
          SqliteStorage.setAllApiSources, SqliteStorage.setAllUserGroups,
          SqliteStorage.setAllUsers]
        split <;> split <;> split <;> exact key _ _
  · intro db u us hu
    unfold SqliteStorage.setAllUsers
    congr 1
    rw [List.foldl_cons]
    congr 1
    have : ∀ r ∈ db.users, (r.username == u.username) = false := by
      intro r hr
      have := List.all_eq_true.mp hu r hr
      simpa using this
    calc db.users.map (fun r =>
          if r.username == u.username then
            { r with
              role := jsOrStr u.role "user"
              banned := if u.banned then 1 else 0
              tags := some (jsonStringify (jsonOrEmptyArr u.tags))
              enabled_apis := some (jsonStringify (jsonOrEmptyArr u.enabledApis)) }
          else r)
        = db.users.map id := by
          apply List.map_congr_left
          intro r hr
          simp [this r hr]
      _ = db.users := List.map_id db.users

/-- Witness for C10's skipped-entry conjunct: updating a user that does not
exist in a one-user table is a no-op. -/
theorem setAllUsers_preserves_credentials_witness :
    SqliteStorage.setAllUsers dbTwoUsers
        ({ username := "carol", password := none, role := "admin", banned := true,
           tags := .arr .nil, enabledApis := .arr .nil } :: []) =
      SqliteStorage.setAllUsers dbTwoUsers [] :=
  setAllUsers_preserves_credentials.2.2 dbTwoUsers
    { username := "carol", password := none, role := "admin", banned := true,
      tags := .arr .nil, enabledApis := .arr .nil } [] (by decide)

/-! ## C6: the admin-config read -/

/-- `applyKvRow` skips a key outside the six the code recognizes. -/
theorem applyKvRow_unrecognized (acc : KvAcc) (r : KVRow)
    (h : r.name ∉ (["config_file", "config_subscription", "site_config",
      "source_config", "custom_categories", "live_config"] : List String)) :
    applyKvRow acc r = some acc := by
  simp only [List.mem_cons, List.mem_singleton, not_or] at h
  obtain ⟨n1, n2, n3, n4, n5, n6⟩ := h
  simp [applyKvRow, n1, n2, n3, n4, n5, n6]

/-- `applyKvRow` fails on a parsed key whose value does not decode. -/
theorem applyKvRow_parse_fail (acc : KvAcc) (r : KVRow)
    (h : r.name ∈ (["config_subscription", "site_config", "source_config",
      "custom_categories", "live_config"] : List String))
    (hp : jsonParse r.value = none) :
    applyKvRow acc r = none := by
  simp only [List.mem_cons, List.not_mem_nil, or_false] at h
  rcases h with h | h | h | h | h <;> simp [applyKvRow, h, hp]

/-- C6 (amended): the key-value overlay of `getAdminConfig` recognizes
exactly six keys.  (1) A row with any other key is ignored: removing it
does not change the read.  (2) If any of the five `JSON.parse`d recognized
rows fails to decode, the entire read fails (returns `null`), never a
partially decoded configuration.  (3) On a table holding the three
settings rows, the read overlays them onto the defaults and takes the five
collections wholesale from their own tables. -/
theorem getAdminConfig_recognized_keys :
    (∀ (dsc : Json) (db : DB) (r : KVRow) (pre post : List KVRow),
      db.admin_config = pre ++ r :: post →
      r.name ∉ (["config_file", "config_subscription", "site_config", "source_config",
        "custom_categories", "live_config"] : List String) →
      SqliteStorage.getAdminConfig dsc db =
        SqliteStorage.getAdminConfig dsc { db with admin_config := pre ++ post }) ∧
    (∀ (dsc : Json) (db : DB) (r : KVRow), r ∈ db.admin_config →
      r.name ∈ (["config_subscription", "site_config", "source_config",
        "custom_categories", "live_config"] : List String) →
      jsonParse r.value = none →
      SqliteStorage.getAdminConfig dsc db = none) ∧
    (∀ (dsc : Json) (db : DB) (f s t : String) (js jt : Json),
      jsonParse s = some js → jsonParse t = some jt →
      SqliteStorage.getAdminConfig dsc
          { db with admin_config :=
              [⟨"config_file", f⟩, ⟨"config_subscription", s⟩, ⟨"site_config", t⟩] } =
        some { ConfigSubscribtion := js, ConfigFile := f, SiteConfig := jt,
               Users := SqliteStorage.getAllUsers db false,
               Tags := some (SqliteStorage.getAllUserGroups db),
               SourceConfig := SqliteStorage.getAllApiSources db,
               CustomCategories := SqliteStorage.getAllCategories db,
               LiveConfig := some (SqliteStorage.getAllLiveSources db) }) := by
  refine ⟨?_, ?_, ?_⟩
  · intro dsc db r pre post hsplit hname
    unfold SqliteStorage.getAdminConfig
    dsimp only
    rw [hsplit]
    rw [List.foldlM_append, List.foldlM_append]
    rcases hpre : pre.foldlM applyKvRow
        { cf := "", sub := defaultConfigSubscribtion, site := dsc,
          src := .arr .nil, cat := .arr .nil, live := .arr .nil } with _ | acc
    · simp only [hpre, Option.bind_eq_bind, Option.none_bind]
    · simp only [hpre, Option.bind_eq_bind, Option.some_bind]
      rw [List.foldlM_cons, applyKvRow_unrecognized acc r hname]
      simp only [Option.bind_eq_bind, Option.some_bind]
      rfl
  · intro dsc db r hr hname hp
    obtain ⟨l1, l2, hsplit⟩ := List.append_of_mem hr
    unfold SqliteStorage.getAdminConfig
    dsimp only
    rw [hsplit, List.foldlM_append]
    rcases hpre : l1.foldlM applyKvRow
        { cf := "", sub := defaultConfigSubscribtion, site := dsc,
          src := .arr .nil, cat := .arr .nil, live := .arr .nil } with _ | acc
    · simp only [hpre, Option.bind_eq_bind, Option.none_bind]
    · simp only [hpre, Option.bind_eq_bind, Option.some_bind]
      rw [List.foldlM_cons, applyKvRow_parse_fail acc r hname hp]
      simp only [Option.bind_eq_bind, Option.none_bind]
  · intro dsc db f s t js jt hs ht
    unfold SqliteStorage.getAdminConfig
    dsimp only
    rw [show ([⟨"config_file", f⟩, ⟨"config_subscription", s⟩, ⟨"site_config", t⟩] :
        List KVRow).foldlM applyKvRow
        { cf := "", sub := defaultConfigSubscribtion, site := dsc,
          src := .arr .nil, cat := .arr .nil, live := .arr .nil } =
      some { cf := f, sub := js, site := jt,
             src := .arr .nil, cat := .arr .nil, live := .arr .nil } by
        simp [applyKvRow, hs, ht]]
    rfl

/-- Counterexample to C6 as stated: a single `custom_categories` row whose
value is not valid JSON.  Under the claim's reading (`custom_categories` is
not among the three recognized keys, unrecognized keys are ignored, and no
recognized row is present — let alone failing) the read should succeed as
it does on an empty key-value table; the code instead parses the row and
returns `null` for the whole read. -/
theorem getAdminConfig_claim_counterexample :
    SqliteStorage.getAdminConfig (.obj .nil)
        { DB.empty with admin_config := [⟨"custom_categories", "oops"⟩] } = none ∧
    (SqliteStorage.getAdminConfig (.obj .nil)
        { DB.empty with admin_config := [] }).isSome = true ∧
    ("custom_categories" ∈
      (["config_file", "config_subscription", "site_config"] : List String)) = False := by
  refine ⟨rfl, rfl, by simp⟩

/-- Witness for C6 (amended), instantiating all three parts at concrete
inputs: an unrecognized `theme` row is ignored, a malformed `site_config`
row fails the whole read, and a well-formed three-row table overlays onto
the defaults. -/
theorem getAdminConfig_recognized_keys_witness :
    (SqliteStorage.getAdminConfig (.obj .nil)
        { DB.empty with admin_config := [⟨"theme", "dark"⟩] } =
      SqliteStorage.getAdminConfig (.obj .nil) { DB.empty with admin_config := [] }) ∧
    (SqliteStorage.getAdminConfig (.obj .nil)
        { DB.empty with admin_config := [⟨"site_config", "nope"⟩] } = none) ∧
    (SqliteStorage.getAdminConfig (.obj .nil)
        { DB.empty with admin_config :=
            [⟨"config_file", "cf"⟩, ⟨"config_subscription", "7"⟩, ⟨"site_config", "8"⟩] } =
      some { ConfigSubscribtion := .num 7, ConfigFile := "cf", SiteConfig := .num 8,
             Users := SqliteStorage.getAllUsers DB.empty false,
             Tags := some (SqliteStorage.getAllUserGroups DB.empty),
             SourceConfig := SqliteStorage.getAllApiSources DB.empty,
             CustomCategories := SqliteStorage.getAllCategories DB.empty,
             LiveConfig := some (SqliteStorage.getAllLiveSources DB.empty) }) :=
  ⟨getAdminConfig_recognized_keys.1 (.obj .nil)
      { DB.empty with admin_config := [⟨"theme", "dark"⟩] } ⟨"theme", "dark"⟩ [] []
      rfl (by simp),
   getAdminConfig_recognized_keys.2.1 (.obj .nil)
      { DB.empty with admin_config := [⟨"site_config", "nope"⟩] } ⟨"site_config", "nope"⟩
      (by simp) (by simp) rfl,
   getAdminConfig_recognized_keys.2.2 (.obj .nil) DB.empty "cf" "7" "8" (.num 7) (.num 8)
      rfl rfl⟩

/-! ## C2: search-history add / cap / bump-to-front -/

/-- Sequential `addSearchHistory` calls with explicit timestamps. -/
def addAll (db : DB) (u : String) : List (String × Nat) → DB
  | [] => db
  | (kw, t) :: rest => addAll (SqliteStorage.addSearchHistory db u kw t) u rest

/-- Strict "older than" order on history rows: earlier creation time, ties
by smaller rowid. -/
def rowLt (a b : SHRow) : Prop :=
  a.created_at < b.created_at ∨ (a.created_at = b.created_at ∧ a.id < b.id)

theorem moreRecent_eq_false {a b : SHRow} (h : rowLt a b) :
    SqliteStorage.moreRecent a b = false := by
  unfold SqliteStorage.moreRecent
  rcases h with h | ⟨he, hi⟩
  · have h1 : decide (b.created_at < a.created_at) = false := by simp; omega
    have h2 : (b.created_at == a.created_at) = false := by simp; omega
    simp [h1, h2]
  · have h1 : decide (b.created_at < a.created_at) = false := by simp; omega
    have h3 : decide (b.id < a.id) = false := by simp; omega
    simp [h1, h3]

/-- Inserting an element that is not more recent than anything in the list
appends it at the end. -/
theorem insertDesc_append (a : SHRow) :
    ∀ l, (∀ b ∈ l, SqliteStorage.moreRecent a b = false) →
      SqliteStorage.insertDesc a l = l ++ [a] := by
  intro l
  induction l with
  | nil => intro _; rfl
  | cons b l ih =>
      intro h
      unfold SqliteStorage.insertDesc
      rw [h b (by simp)]
      simp only [Bool.false_eq_true, if_false, List.cons_append]
      rw [ih (fun c hc => h c (by simp [hc]))]

/-- On a list that is strictly oldest-first, the `ORDER BY ... DESC` sort is
exactly reversal. -/
theorem sortDesc_eq_reverse :
    ∀ l, List.Pairwise rowLt l → SqliteStorage.sortDesc l = l.reverse := by
  intro l
  induction l with
  | nil => intro _; rfl
  | cons a l ih =>
      intro h
      obtain ⟨ha, hl⟩ := List.pairwise_cons.mp h
      unfold SqliteStorage.sortDesc
      rw [ih hl]
      rw [insertDesc_append a l.reverse
        (fun b hb => moreRecent_eq_false (ha b (List.mem_reverse.mp hb)))]
      simp

/-- Filtering a rowid-increasing list by membership of the rowid among the
rowids of its `drop k` suffix yields exactly that suffix. -/
theorem filter_keep_drop (L : List SHRow) (k : Nat)
    (hids : List.Pairwise (fun a b : SHRow => a.id < b.id) L) :
    L.filter (fun r => ((L.drop k).map (·.id)).contains r.id) = L.drop k := by
  have hsplit := List.pairwise_append.mp
    (by rw [List.take_append_drop k L]; exact hids :
      List.Pairwise (fun a b : SHRow => a.id < b.id) (L.take k ++ L.drop k))
  have h1 : (L.take k).filter (fun r => ((L.drop k).map (·.id)).contains r.id) = [] := by
    rw [List.filter_eq_nil_iff]
    intro r hr
    have : r.id ∉ (L.drop k).map (·.id) := by
      intro hmem
      obtain ⟨b, hb, hbid⟩ := List.mem_map.mp hmem
      have := hsplit.2.2 r hr b hb
      omega
    simpa using this
  have h2 : (L.drop k).filter (fun r => ((L.drop k).map (·.id)).contains r.id) =
      L.drop k := by
    apply List.filter_eq_self.mpr
    intro r hr
    have : r.id ∈ (L.drop k).map (·.id) := List.mem_map_of_mem _ hr
    simpa using this
  calc L.filter (fun r => ((L.drop k).map (·.id)).contains r.id)
      = (L.take k ++ L.drop k).filter
          (fun r => ((L.drop k).map (·.id)).contains r.id) := by
        rw [List.take_append_drop]
    _ = L.drop k := by rw [List.filter_append, h1, h2, List.nil_append]

/-- Invariant tying a database to the list `R` of one user's history rows:
`R` is the user's rows in table order, oldest first with strictly increasing
rowids, all rowids below the AUTOINCREMENT counter, at most 20 rows, with
pairwise-distinct keywords, all owned by the user. -/
structure HistInv (db : DB) (u : String) (R : List SHRow) : Prop where
  rows : db.search_history.filter (fun r => r.username == u) = R
  ordered : List.Pairwise rowLt R
  idOrdered : List.Pairwise (fun a b : SHRow => a.id < b.id) R
  ids_lt : ∀ r ∈ R, r.id < db.nextShId
  len_le : R.length ≤ 20
  kwNodup : (R.map (·.keyword)).Nodup
  owner : ∀ r ∈ R, r.username = u

/-- The user's rows after one `addSearchHistory` step, given they were `R`
before: the exact-keyword rows are deleted, the fresh row is appended, and
everything but the 20 most recent is trimmed. -/
def nextHist (R : List SHRow) (n : Nat) (u kw : String) (t : Nat) : List SHRow :=
  let R1 := R.filter (fun r => !(r.keyword == kw))
  (R1 ++ [(⟨n, u, kw, t⟩ : SHRow)]).drop (R1.length + 1 - 20)

/-- `contains` is invariant under list reversal. -/
theorem contains_reverse (l : List Nat) (x : Nat) :
    l.reverse.contains x = l.contains x := by simp

/-- The trim predicate of `addSearchHistory` restricted to the user's own
rows is membership of the rowid in the keep list. -/
theorem trimPred_eq (u : String) (keep : List Nat) (r : SHRow) :
    ((r.username == u) && (!(r.username == u) || keep.contains r.id)) =
      (keep.contains r.id && (r.username == u)) := by
  by_cases h1 : r.username == u <;> by_cases h2 : keep.contains r.id <;> simp [h1, h2]

/-- The user's rows after `addSearchHistory` are exactly `nextHist`:
keyword-duplicates deleted, the fresh row appended, trimmed to the 20 most
recent. -/
theorem addSearchHistory_rows (db : DB) (u kw : String) (t : Nat) (R : List SHRow)
    (hrows : db.search_history.filter (fun r => r.username == u) = R)
    (hLord : List.Pairwise rowLt
      (R.filter (fun r => !(r.keyword == kw)) ++ [(⟨db.nextShId, u, kw, t⟩ : SHRow)]))
    (hLid : List.Pairwise (fun a b : SHRow => a.id < b.id)
      (R.filter (fun r => !(r.keyword == kw)) ++ [(⟨db.nextShId, u, kw, t⟩ : SHRow)])) :
    (SqliteStorage.addSearchHistory db u kw t).search_history.filter
        (fun r => r.username == u) =
      nextHist R db.nextShId u kw t := by
  have hAfilter : (db.search_history.filter
      (fun r => !(r.username == u && r.keyword == kw))).filter
        (fun r => r.username == u) = R.filter (fun r => !(r.keyword == kw)) := by
    rw [List.filter_filter]
    have hpt : ∀ r ∈ db.search_history,
        ((r.username == u) && !(r.username == u && r.keyword == kw)) =
        (!(r.keyword == kw) && (r.username == u)) := by
      intro r _
      by_cases h1 : r.username == u <;> by_cases h2 : r.keyword == kw <;> simp [h1, h2]
    rw [List.filter_congr hpt]
    rw [← List.filter_filter]
    rw [hrows]
  have hIfilter : ((db.search_history.filter
        (fun r => !(r.username == u && r.keyword == kw))) ++
          [(⟨db.nextShId, u, kw, t⟩ : SHRow)]).filter (fun r => r.username == u) =
      R.filter (fun r => !(r.keyword == kw)) ++ [(⟨db.nextShId, u, kw, t⟩ : SHRow)] := by
    rw [List.filter_append, hAfilter]
    simp [List.filter]
  have hkeepmem : ∀ x : Nat,
      ((((R.filter (fun r => !(r.keyword == kw)) ++
          [(⟨db.nextShId, u, kw, t⟩ : SHRow)]).reverse.take 20).map (·.id)).contains x) =
      ((((R.filter (fun r => !(r.keyword == kw)) ++
          [(⟨db.nextShId, u, kw, t⟩ : SHRow)]).drop
            ((R.filter (fun r => !(r.keyword == kw))).length + 1 - 20)).map
          (·.id)).contains x) := by
    intro x
    by_cases hlen : (R.filter (fun r => !(r.keyword == kw))).length + 1 ≤ 20
    · have hk : (R.filter (fun r => !(r.keyword == kw))).length + 1 - 20 = 0 := by omega
      have h20 : (R.filter (fun r => !(r.keyword == kw)) ++
          [(⟨db.nextShId, u, kw, t⟩ : SHRow)]).reverse.take 20 =
          (R.filter (fun r => !(r.keyword == kw)) ++
            [(⟨db.nextShId, u, kw, t⟩ : SHRow)]).reverse := by
        apply List.take_of_length_le
        simp only [List.length_reverse, List.length_append, List.length_singleton]
        omega
      rw [hk, h20, List.drop_zero, List.map_reverse]
      exact contains_reverse _ _
    · have hk : (R.filter (fun r => !(r.keyword == kw))).length + 1 - 20 =
          (R.filter (fun r => !(r.keyword == kw))).length - 19 := by omega
      have hrev : ((R.filter (fun r => !(r.keyword == kw)) ++
            [(⟨db.nextShId, u, kw, t⟩ : SHRow)]).drop
              ((R.filter (fun r => !(r.keyword == kw))).length + 1 - 20)).reverse =
          (R.filter (fun r => !(r.keyword == kw)) ++
            [(⟨db.nextShId, u, kw, t⟩ : SHRow)]).reverse.take 20 := by
        rw [List.reverse_drop]
        congr 1
        simp only [List.length_append, List.length_singleton]
        omega
      rw [← hrev, List.map_reverse]
      exact contains_reverse _ _
  unfold SqliteStorage.addSearchHistory
  dsimp only
  rw [List.filter_filter]
  rw [List.filter_congr (fun r _ => trimPred_eq u _ r)]
  rw [← List.filter_filter]
  rw [hIfilter]
  rw [sortDesc_eq_reverse _ hLord]
  have hpt3 : ∀ r ∈ R.filter (fun r => !(r.keyword == kw)) ++
      [(⟨db.nextShId, u, kw, t⟩ : SHRow)],
      ((((R.filter (fun r => !(r.keyword == kw)) ++
          [(⟨db.nextShId, u, kw, t⟩ : SHRow)]).reverse.take
            SqliteStorage.SEARCH_HISTORY_LIMIT).map (·.id)).contains r.id) =
      ((((R.filter (fun r => !(r.keyword == kw)) ++
          [(⟨db.nextShId, u, kw, t⟩ : SHRow)]).drop
            ((R.filter (fun r => !(r.keyword == kw))).length + 1 - 20)).map
          (·.id)).contains r.id) := by
    intro r _
    exact hkeepmem r.id
  rw [List.filter_congr hpt3]
  exact filter_keep_drop _ _ hLid

/-- One `addSearchHistory` step preserves the history invariant, advancing
the user's rows to `nextHist`, bumping the AUTOINCREMENT counter, with all
resulting timestamps at most the new one. -/
theorem addSearchHistory_step (db : DB) (u kw : String) (t : Nat) (R : List SHRow)
    (inv : HistInv db u R) (ht : ∀ r ∈ R, r.created_at < t) :
    HistInv (SqliteStorage.addSearchHistory db u kw t) u (nextHist R db.nextShId u kw t) ∧
    (SqliteStorage.addSearchHistory db u kw t).nextShId = db.nextShId + 1 ∧
    (∀ r ∈ nextHist R db.nextShId u kw t, r.created_at ≤ t) := by
  have hR1sub : (R.filter (fun r => !(r.keyword == kw))).Sublist R := List.filter_sublist R
  have hR1mem : ∀ r ∈ R.filter (fun r => !(r.keyword == kw)), r ∈ R :=
    fun r hr => hR1sub.subset hr
  have hLord : List.Pairwise rowLt
      (R.filter (fun r => !(r.keyword == kw)) ++ [(⟨db.nextShId, u, kw, t⟩ : SHRow)]) := by
    rw [List.pairwise_append]
    refine ⟨inv.ordered.sublist hR1sub, by simp, ?_⟩
    intro a ha b hb
    rw [List.mem_singleton] at hb
    subst hb
    exact Or.inl (ht a (hR1mem a ha))
  have hLid : List.Pairwise (fun a b : SHRow => a.id < b.id)
      (R.filter (fun r => !(r.keyword == kw)) ++ [(⟨db.nextShId, u, kw, t⟩ : SHRow)]) := by
    rw [List.pairwise_append]
    refine ⟨inv.idOrdered.sublist hR1sub, by simp, ?_⟩
    intro a ha b hb
    rw [List.mem_singleton] at hb
    subst hb
    exact inv.ids_lt a (hR1mem a ha)
  have hNH : nextHist R db.nextShId u kw t =
      (R.filter (fun r => !(r.keyword == kw)) ++ [(⟨db.nextShId, u, kw, t⟩ : SHRow)]).drop
        ((R.filter (fun r => !(r.keyword == kw))).length + 1 - 20) := rfl
  have hmemL : ∀ r ∈ nextHist R db.nextShId u kw t,
      r ∈ R ∨ r = (⟨db.nextShId, u, kw, t⟩ : SHRow) := by
    intro r hr
    rw [hNH] at hr
    have := List.drop_subset _ _ hr
    rcases List.mem_append.mp this with h | h
    · exact Or.inl (hR1mem r h)
    · exact Or.inr (List.mem_singleton.mp h)
  refine ⟨⟨?_, ?_, ?_, ?_, ?_, ?_, ?_⟩, rfl, ?_⟩
  · exact addSearchHistory_rows db u kw t R inv.rows hLord hLid
  · rw [hNH]
    exact hLord.sublist (List.drop_sublist _ _)
  · rw [hNH]
    exact hLid.sublist (List.drop_sublist _ _)
  · intro r hr
    have hnext : (SqliteStorage.addSearchHistory db u kw t).nextShId = db.nextShId + 1 := rfl
    rw [hnext]
    rcases hmemL r hr with h | h
    · have := inv.ids_lt r h
      omega
    · subst h
      simp
  · rw [hNH]
    rw [List.length_drop, List.length_append, List.length_singleton]
    omega
  · rw [hNH]
    have hperm : ((R.filter (fun r => !(r.keyword == kw)) ++
        [(⟨db.nextShId, u, kw, t⟩ : SHRow)]).map (·.keyword)).Nodup := by
      rw [List.map_append]
      rw [List.nodup_append]
      refine ⟨inv.kwNodup.sublist (hR1sub.map (·.keyword)), by simp, ?_⟩
      intro x hx
      obtain ⟨r, hr, hrx⟩ := List.mem_map.mp hx
      have hpred := (List.mem_filter.mp hr).2
      simp only [Bool.not_eq_true', beq_eq_false_iff_ne] at hpred
      simp only [List.map_cons, List.map_nil, List.mem_singleton]
      intro hxkw
      exact hpred (by rw [← hrx] at hxkw; exact hxkw)
    rw [List.map_drop]
    exact hperm.sublist (List.drop_sublist _ _)
  · intro r hr
    rcases hmemL r hr with h | h
    · exact inv.owner r h
    · subst h; rfl
  · intro r hr
    rcases hmemL r hr with h | h
    · exact le_of_lt (ht r h)
    · subst h; rfl

/-- Folding `addSearchHistory` over fresh, distinct keywords with strictly
increasing timestamps keeps the invariant, and the surviving
(keyword, time) pairs are the last 20 of old-pairs-then-new-pairs. -/
theorem addAll_spec (u : String) :
    ∀ (l : List (String × Nat)) (db : DB) (R : List SHRow),
      HistInv db u R →
      (l.map Prod.fst).Nodup →
      List.Pairwise (· < ·) (l.map Prod.snd) →
      (∀ r ∈ R, ∀ p ∈ l, r.created_at < p.2) →
      (∀ r ∈ R, r.keyword ∉ l.map Prod.fst) →
      ∃ R2, HistInv (addAll db u l) u R2 ∧
        R2.map (fun r => (r.keyword, r.created_at)) =
          (R.map (fun r => (r.keyword, r.created_at)) ++ l).drop
            (R.length + l.length - 20) := by
  intro l
  induction l with
  | nil =>
      intro db R inv _ _ _ _
      refine ⟨R, inv, ?_⟩
      have hl := inv.len_le
      have h0 : R.length + List.length ([] : List (String × Nat)) - 20 = 0 := by
        simp
        omega
      rw [h0, List.drop_zero, List.append_nil]
  | cons p l ih =>
      obtain ⟨kw, t⟩ := p
      intro db R inv hnd hpw htime hfresh
      have ht : ∀ r ∈ R, r.created_at < t := fun r hr => htime r hr (kw, t) (by simp)
      obtain ⟨inv', hnext, htle⟩ := addSearchHistory_step db u kw t R inv ht
      have hR1 : R.filter (fun r => !(r.keyword == kw)) = R := by
        apply List.filter_eq_self.mpr
        intro r hr
        have := hfresh r hr
        simp only [List.map_cons, List.mem_cons, not_or] at this
        simp only [Bool.not_eq_true', beq_eq_false_iff_ne]
        exact this.1
      have hNH : nextHist R db.nextShId u kw t =
          (R ++ [(⟨db.nextShId, u, kw, t⟩ : SHRow)]).drop (R.length + 1 - 20) := by
        unfold nextHist
        rw [hR1]
      rw [hNH] at inv' htle
      have hpw' : List.Pairwise (· < ·) (t :: l.map Prod.snd) := by
        simpa using hpw
      have hheadlt : ∀ s ∈ l.map Prod.snd, t < s := (List.pairwise_cons.mp hpw').1
      have hpwtail := (List.pairwise_cons.mp hpw').2
      obtain ⟨R2, inv2, heq⟩ := ih (SqliteStorage.addSearchHistory db u kw t)
        ((R ++ [(⟨db.nextShId, u, kw, t⟩ : SHRow)]).drop (R.length + 1 - 20))
        inv'
        (by simpa using hnd.of_cons)
        hpwtail
        (by
          intro r hr p hp
          have hrL := List.drop_subset _ _ hr
          rcases List.mem_append.mp hrL with h | h
          · exact htime r h p (by simp [hp])
          · rw [List.mem_singleton] at h
            subst h
            exact hheadlt p.2 (List.mem_map_of_mem _ hp))
        (by
          intro r hr
          have hrL := List.drop_subset _ _ hr
          rcases List.mem_append.mp hrL with h | h
          · have := hfresh r h
            simp only [List.map_cons, List.mem_cons, not_or] at this
            exact this.2
          · rw [List.mem_singleton] at h
            subst h
            have := hnd
            simp only [List.map_cons, List.nodup_cons] at this
            exact this.1)
      refine ⟨R2, ?_, ?_⟩
      · show HistInv (addAll (SqliteStorage.addSearchHistory db u kw t) u l) u R2
        exact inv2
      · rw [heq]
        have hpairs : ((R ++ [(⟨db.nextShId, u, kw, t⟩ : SHRow)]).drop
              (R.length + 1 - 20)).map (fun r => (r.keyword, r.created_at)) =
            ((R.map (fun r => (r.keyword, r.created_at)) ++ [(kw, t)]).drop
              (R.length + 1 - 20)) := by
          rw [List.map_drop, List.map_append]
          rfl
        rw [hpairs]
        have hklen : R.length + 1 - 20 ≤
            (R.map (fun r => (r.keyword, r.created_at)) ++ [(kw, t)]).length := by
          simp
          omega
        rw [← List.drop_append_of_le_length hklen]
        rw [List.drop_drop]
        have hlendrop : ((R ++ [(⟨db.nextShId, u, kw, t⟩ : SHRow)]).drop
            (R.length + 1 - 20)).length = R.length + 1 - (R.length + 1 - 20) := by
          rw [List.length_drop]
          simp
        rw [hlendrop]
        have harith : R.length + 1 - 20 +
            (R.length + 1 - (R.length + 1 - 20) + l.length - 20) =
            R.length + (l.length + 1) - 20 := by
          have := inv.len_le
          omega
        rw [harith]
        have hassoc : (R.map (fun r => (r.keyword, r.created_at)) ++ [(kw, t)]) ++ l =
            R.map (fun r => (r.keyword, r.created_at)) ++ ((kw, t) :: l) := by
          simp
        rw [hassoc]
        simp

/-- Removing the unique occurrence of a value from a duplicate-free list
shortens it by exactly one. -/
theorem filter_ne_length_of_nodup (l : List String) (x : String)
    (h : l.Nodup) (hx : x ∈ l) :
    (l.filter (fun a => !(a == x))).length = l.length - 1 := by
  have h1 : l.countP (fun a => a == x) = 1 := by
    rw [← List.count_eq_countP]
    exact List.count_eq_one_of_mem h hx
  have h2 := List.length_eq_countP_add_countP (fun a => a == x) l
  have h3 := (List.countP_eq_length_filter (fun a => !(a == x)) l).symm
  have h4 : l.countP (fun a => decide (¬(a == x) = true)) =
      l.countP (fun a => !(a == x)) := by
    apply List.countP_congr
    intro a _
    cases hax : (a == x) <;> simp [hax]
  rw [h1, h4] at h2
  omega

/-- C2: `addSearchHistory` deletes the exact `(user, keyword)` rows,
inserts a fresh row, and trims the user to the 20 most recent rows.
Consequently, starting from a state with no history for the user, adding 25
distinct keywords at increasing timestamps leaves exactly 20 stored rows —
the 20 most recently added, returned newest-first by `getSearchHistory` —
and re-adding a currently stored keyword at a later timestamp keeps the
count at 20 and moves that keyword to the front of the history. -/
theorem searchHistory_cap_and_bump (db : DB) (u : String) (l : List (String × Nat))
    (hlen : l.length = 25)
    (hnd : (l.map Prod.fst).Nodup)
    (hch : List.Pairwise (· < ·) (l.map Prod.snd))
    (hempty : db.search_history.filter (fun r => r.username == u) = []) :
    ((addAll db u l).search_history.filter (fun r => r.username == u)).length = 20 ∧
    SqliteStorage.getSearchHistory (addAll db u l) u = (l.map Prod.fst).reverse.take 20 ∧
    (∀ kw t', kw ∈ SqliteStorage.getSearchHistory (addAll db u l) u →
      (∀ p ∈ l, p.2 < t') →
      ((SqliteStorage.addSearchHistory (addAll db u l) u kw t').search_history.filter
          (fun r => r.username == u)).length = 20 ∧
      SqliteStorage.getSearchHistory
          (SqliteStorage.addSearchHistory (addAll db u l) u kw t') u =
        kw :: (SqliteStorage.getSearchHistory (addAll db u l) u).filter
          (fun x => !(x == kw))) := by
  have inv0 : HistInv db u [] :=
    ⟨hempty, by simp, by simp, by simp, by simp, by simp, by simp⟩
  obtain ⟨R2, inv2, hpairs⟩ := addAll_spec u l db [] inv0 hnd hch (by simp) (by simp)
  have hpairs' : R2.map (fun r => (r.keyword, r.created_at)) = l.drop 5 := by
    rw [hpairs]
    simp [hlen]
  have hR2len : R2.length = 20 := by
    have := congrArg List.length hpairs'
    simp only [List.length_map, List.length_drop, hlen] at this
    omega
  have hkw2 : R2.map (·.keyword) = (l.map Prod.fst).drop 5 := by
    have := congrArg (List.map Prod.fst) hpairs'
    simpa [List.map_map, List.map_drop] using this
  have hget : SqliteStorage.getSearchHistory (addAll db u l) u =
      (R2.map (·.keyword)).reverse := by
    unfold SqliteStorage.getSearchHistory SqliteStorage.SEARCH_HISTORY_LIMIT
    rw [inv2.rows, sortDesc_eq_reverse _ inv2.ordered]
    rw [List.take_of_length_le (by rw [List.length_reverse, hR2len])]
    rw [List.map_reverse]
  refine ⟨?_, ?_, ?_⟩
  · rw [inv2.rows, hR2len]
  · rw [hget, hkw2, List.reverse_drop]
    congr 1
    simp [hlen]
  · intro kw t' hkw ht'
    have hkwmem : kw ∈ R2.map (·.keyword) := by
      rw [hget] at hkw
      exact List.mem_reverse.mp hkw
    have htR2 : ∀ r ∈ R2, r.created_at < t' := by
      intro r hr
      have hp : (r.keyword, r.created_at) ∈ l.drop 5 := by
        rw [← hpairs']
        exact List.mem_map_of_mem _ hr
      exact ht' _ (List.drop_subset _ _ hp)
    obtain ⟨inv3, hnext3, _⟩ :=
      addSearchHistory_step (addAll db u l) u kw t' R2 inv2 htR2
    have hmapf : (R2.filter (fun r => !(r.keyword == kw))).map (·.keyword) =
        (R2.map (·.keyword)).filter (fun x => !(x == kw)) := by
      rw [List.filter_map]
      rfl
    have hf21 : (R2.filter (fun r => !(r.keyword == kw))).length = 19 := by
      have h1 := congrArg List.length hmapf
      rw [List.length_map] at h1
      rw [h1, filter_ne_length_of_nodup _ _ inv2.kwNodup hkwmem, List.length_map, hR2len]
    have hk0 : (R2.filter (fun r => !(r.keyword == kw))).length + 1 - 20 = 0 := by
      omega
    have hNH3 : nextHist R2 (addAll db u l).nextShId u kw t' =
        R2.filter (fun r => !(r.keyword == kw)) ++
          [(⟨(addAll db u l).nextShId, u, kw, t'⟩ : SHRow)] := by
      unfold nextHist
      dsimp only
      rw [hk0, List.drop_zero]
    constructor
    · rw [inv3.rows, hNH3, List.length_append, List.length_singleton, hf21]
    · have hord3 : List.Pairwise rowLt
          (R2.filter (fun r => !(r.keyword == kw)) ++
            [(⟨(addAll db u l).nextShId, u, kw, t'⟩ : SHRow)]) := by
        rw [← hNH3]
        exact inv3.ordered
      have hlen3 : ((List.reverse [(⟨(addAll db u l).nextShId, u, kw, t'⟩ : SHRow)]) ++
          (R2.filter (fun r => !(r.keyword == kw))).reverse).length = 20 := by
        simp [hf21]
      have hgetnew : SqliteStorage.getSearchHistory
          (SqliteStorage.addSearchHistory (addAll db u l) u kw t') u =
          kw :: ((R2.map (·.keyword)).filter (fun x => !(x == kw))).reverse := by
        unfold SqliteStorage.getSearchHistory SqliteStorage.SEARCH_HISTORY_LIMIT
        rw [inv3.rows, hNH3, sortDesc_eq_reverse _ hord3]
        rw [List.reverse_append]
        rw [List.take_of_length_le (le_of_eq hlen3)]
        rw [List.reverse_singleton, List.singleton_append, List.map_cons]
        rw [List.map_reverse, hmapf]
      rw [hgetnew, hget, List.filter_reverse]

/-- Witness for the search-history claim: 25 distinct keyword additions on an
empty store, followed by a re-add of keyword "24". -/
theorem searchHistory_cap_and_bump_witness :
    (((addAll DB.empty "u" ((List.range 25).map (fun i => (Nat.repr i, i)))).search_history.filter
        (fun r => r.username == "u")).length = 20) ∧
    SqliteStorage.getSearchHistory
        (addAll DB.empty "u" ((List.range 25).map (fun i => (Nat.repr i, i)))) "u" =
      ((((List.range 25).map (fun i => (Nat.repr i, i))).map Prod.fst).reverse.take 20) ∧
    (((SqliteStorage.addSearchHistory
          (addAll DB.empty "u" ((List.range 25).map (fun i => (Nat.repr i, i))))
          "u" "24" 100).search_history.filter (fun r => r.username == "u")).length = 20) ∧
    SqliteStorage.getSearchHistory
        (SqliteStorage.addSearchHistory
          (addAll DB.empty "u" ((List.range 25).map (fun i => (Nat.repr i, i))))
          "u" "24" 100) "u" =
      "24" :: (SqliteStorage.getSearchHistory
          (addAll DB.empty "u" ((List.range 25).map (fun i => (Nat.repr i, i)))) "u").filter
        (fun x => !(x == "24")) := by
  obtain ⟨h1, h2, h3⟩ := searchHistory_cap_and_bump DB.empty "u"
      ((List.range 25).map (fun i => (Nat.repr i, i)))
      (by decide) (by decide) (by decide) rfl
  have hm : "24" ∈ SqliteStorage.getSearchHistory
      (addAll DB.empty "u" ((List.range 25).map (fun i => (Nat.repr i, i)))) "u" := by
    rw [h2]
    decide
  obtain ⟨h3a, h3b⟩ := h3 "24" 100 hm (by decide)
  exact ⟨h1, h2, h3a, h3b⟩

/-! ## C7: the admin-config round trip -/

/-- A configuration holding one user, on top of an otherwise falsy/empty
configuration: `setAllUsers` is update-only, so writing it to an empty
database stores no user row at all. -/
def cfgOneUser : AdminConfig :=
  { ConfigSubscribtion := .bool false
    ConfigFile := ""
    SiteConfig := .bool false
    Users := [⟨"alice", none, "user", false, .arr .nil, .arr .nil⟩]
    Tags := none
    SourceConfig := []
    CustomCategories := []
    LiveConfig := none }

/-- Refutation of the unrestricted round-trip claim: writing a
configuration with one user to an empty database and reading back yields an
empty user collection — not a permutation (multiset rearrangement) of the
written one-element user collection. -/
theorem adminConfig_roundtrip_counterexample :
    (SqliteStorage.getAdminConfig (.bool true)
        (SqliteStorage.setAdminConfig DB.empty cfgOneUser)).map
      (fun c => c.Users) = some [] ∧
    cfgOneUser.Users ≠ [] := by
  constructor
  · rfl
  · simp [cfgOneUser]

/-- A truthy JSON array is returned unchanged by `x || []`. -/
theorem jsonOrEmptyArr_of_isArr (j : Json) (h : j.isArr = true) :
    jsonOrEmptyArr j = j := by
  cases j <;> simp_all [Json.isArr, jsonOrEmptyArr, jsTruthy]

/-- `JSON.stringify` never produces the empty string. -/
theorem jsonStringify_ne_empty (j : Json) : (jsonStringify j != "") = true := by
  have h := serVal_ne_nil j
  simp [bne, jsonStringify]
  intro hcon
  exact h (by simpa using congrArg String.data hcon)

/-- An `INSERT OR REPLACE` fold over a table: when every accumulated row
survives every later upsert's conflict filter (pairwise-distinct keys), the
fold just appends the built rows in input order. -/
theorem foldl_upsert_eq_map {α ρ : Type} (b : α → ρ) (p : α → ρ → Bool) :
    ∀ (l : List α) (acc : List ρ),
      (∀ r ∈ acc, ∀ y ∈ l, p y r = true) →
      List.Pairwise (fun y z => p z (b y) = true) l →
      l.foldl (fun t y => t.filter (p y) ++ [b y]) acc = acc ++ l.map b := by
  intro l
  induction l with
  | nil => intro acc _ _; simp
  | cons y l ih =>
      intro acc hacc hpw
      rw [List.foldl_cons]
      have hfix : acc.filter (p y) = acc :=
        List.filter_eq_self.mpr (fun r hr => hacc r hr y (List.mem_cons_self y l))
      rw [hfix]
      rw [List.pairwise_cons] at hpw
      rw [ih (acc ++ [b y])
        (by
          intro r hr z hz
          rcases List.mem_append.mp hr with h | h
          · exact hacc r h z (List.mem_cons_of_mem _ hz)
          · rw [List.mem_singleton.mp h]
            exact hpw.1 z hz)
        hpw.2]
      simp

/-- `x ? String(x) : undefined` is the identity away from `some ""`. -/
theorem optTruthy_of_ne (o : Option String) (h : o ≠ some "") : optTruthy o = o := by
  cases o with
  | none => rfl
  | some s =>
      have hs : (s != "") = true := by
        simp [bne]
        intro hc
        exact h (by rw [hc])
      simp [optTruthy, hs]

/-- The row update performed by one `setAllUsers` UPDATE statement on a
matching row. -/
def updRow (u : User) (r : UserRow) : UserRow :=
  { r with
    role := jsOrStr u.role "user"
    banned := if u.banned then 1 else 0
    tags := some (jsonStringify (jsonOrEmptyArr u.tags))
    enabled_apis := some (jsonStringify (jsonOrEmptyArr u.enabledApis)) }

/-- The `setAllUsers` fold, restated through `updRow`. -/
theorem setAllUsers_eq_updRow (db : DB) (users : List User) :
    SqliteStorage.setAllUsers db users =
      { db with
        users := users.foldl
          (fun t u => t.map fun r =>
            if r.username == u.username then updRow u r else r)
          db.users } := rfl

/-- With duplicate-free input usernames, the `setAllUsers` fold rewrites
each row according to the (unique) input entry matching its username, and
leaves unmatched rows alone. -/
theorem foldl_update_eq_map (us : List User) (t : List UserRow)
    (hnd : (us.map (fun u => u.username)).Nodup) :
    us.foldl
        (fun t u => t.map fun r =>
          if r.username == u.username then updRow u r else r) t =
      t.map fun r =>
        match us.find? (fun u => r.username == u.username) with
        | some u => updRow u r
        | none => r := by
  induction us generalizing t with
  | nil =>
      rw [List.foldl_nil]
      symm
      simp [List.find?]
  | cons u us ih =>
      rw [List.foldl_cons, List.map_cons] at *
      rw [List.nodup_cons] at hnd
      rw [ih _ hnd.2, List.map_map]
      apply List.map_congr_left
      intro r _
      simp only [Function.comp]
      by_cases h : (r.username == u.username) = true
      · rw [if_pos h]
        have hru : r.username = u.username := by simpa using h
        have hnone : us.find? (fun v => (updRow u r).username == v.username) = none := by
          apply List.find?_eq_none.mpr
          intro v hv
          have : (updRow u r).username = r.username := rfl
          rw [this, hru]
          intro hc
          have hc' : u.username = v.username := by simpa using hc
          exact hnd.1 (hc' ▸ List.mem_map_of_mem (fun u => u.username) hv)
        rw [hnone, List.find?_cons, h]
      · rw [if_neg h]
        have h' : (r.username == u.username) = false := by simpa using h
        rw [List.find?_cons, h']

/-- In a list of users with duplicate-free usernames, searching for a
member's username finds that member. -/
theorem find?_username_self (us : List User) (u : User) (hu : u ∈ us)
    (hnd : (us.map (fun v => v.username)).Nodup) :
    us.find? (fun v => u.username == v.username) = some u := by
  induction us with
  | nil => cases hu
  | cons w ws ih =>
      rw [List.map_cons, List.nodup_cons] at hnd
      rcases List.mem_cons.mp hu with h | h
      · subst h
        rw [List.find?_cons]
        simp
      · have hw : (u.username == w.username) = false := by
          simp only [beq_eq_false_iff_ne, ne_eq]
          intro hc
          exact hnd.1 (hc ▸ List.mem_map_of_mem (fun v => v.username) h)
        rw [List.find?_cons, hw]
        exact ih h hnd.2

/-- Reading back (without passwords) a row freshly rewritten by
`setAllUsers` from user `u` reproduces `u`, provided `u` carries no
password, a nonempty role, and array-valued tag/API lists. -/
theorem decode_updRow (u : User) (r : UserRow)
    (hrn : r.username = u.username)
    (hp : u.password = none)
    (hrole : (u.role == "") = false)
    (ht : u.tags.isArr = true)
    (he : u.enabledApis.isArr = true) :
    decodeUserRow false (updRow u r) = u := by
  obtain ⟨un, pw, ro, bn, tg, ea⟩ := u
  simp only at hrn hp hrole ht he ⊢
  subst hp
  have htags : jsonOrEmptyArr tg = tg := jsonOrEmptyArr_of_isArr _ ht
  have heas : jsonOrEmptyArr ea = ea := jsonOrEmptyArr_of_isArr _ he
  unfold decodeUserRow updRow
  simp only [htags, heas, hrn, jsonStringify_ne_empty, jsonParse_jsonStringify,
    if_true]
  have hro : jsOrStr (jsOrStr ro "user") "user" = ro := by
    unfold jsOrStr
    rw [if_neg (by simp_all), if_neg (by simp_all)]
  have hbn : ((if bn then (1 : Nat) else 0) != 0) = bn := by
    cases bn <;> rfl
  simp [hro, hbn]

/-- A duplicate-free key projection yields pairwise-distinct keys. -/
theorem nodup_map_pairwise {α κ : Type} (f : α → κ) (l : List α)
    (h : (l.map f).Nodup) : l.Pairwise (fun a b => f a ≠ f b) :=
  List.pairwise_map.mp h

/-- Writing the user groups into an empty table and reading them back is
the identity (duplicate-free names, array-valued API lists). -/
theorem groups_set_get (tags : List UserGroup)
    (hnd : (tags.map (fun g => g.name)).Nodup)
    (hhyg : ∀ g ∈ tags, g.enabledApis.isArr = true) :
    (tags.foldl
        (fun t g => t.filter (fun r => r.name != g.name) ++
          [(⟨g.name, jsonStringify (jsonOrEmptyArr g.enabledApis)⟩ : KVRow)]) []).map
      (fun r => ({ name := r.name
                   enabledApis :=
                     match jsonParse r.value with
                     | some j => j
                     | none => .arr .nil } : UserGroup)) = tags := by
  have hpw : List.Pairwise
      (fun g g' : UserGroup => (g.name != g'.name) = true) tags :=
    (nodup_map_pairwise (fun g => g.name) tags hnd).imp fun h => bne_iff_ne.mpr h
  have hfold := foldl_upsert_eq_map
    (fun g : UserGroup => (⟨g.name, jsonStringify (jsonOrEmptyArr g.enabledApis)⟩ : KVRow))
    (fun g r => r.name != g.name) tags [] (by intro r hr; cases hr) hpw
  rw [show (tags.foldl
      (fun t g => t.filter (fun r => r.name != g.name) ++
        [(⟨g.name, jsonStringify (jsonOrEmptyArr g.enabledApis)⟩ : KVRow)]) []) =
      tags.map (fun g =>
        (⟨g.name, jsonStringify (jsonOrEmptyArr g.enabledApis)⟩ : KVRow)) from by
    simpa using hfold]
  rw [List.map_map]
  conv_rhs => rw [← List.map_id tags]
  apply List.map_congr_left
  intro g hg
  simp only [Function.comp, jsonParse_jsonStringify, id,
    jsonOrEmptyArr_of_isArr _ (hhyg g hg)]

/-- Writing the API sources into an empty table and reading them back is
the identity (duplicate-free keys, no empty-string detail). -/
theorem apiSources_set_get (sources : List ApiSource)
    (hnd : (sources.map (fun s => s.key)).Nodup)
    (hhyg : ∀ s ∈ sources, s.detail ≠ some "") :
    (sources.foldl
        (fun t s => t.filter (fun r => r.key != s.key) ++
          [(⟨s.key, s.name, s.api, s.detail, s.«from», if s.disabled then 1 else 0⟩ :
            ApiSourceRow)]) []).map
      (fun r => ({ key := r.key, name := r.name, api := r.api
                   detail := optTruthy r.detail
                   «from» := r.from_source
                   disabled := r.disabled != 0 } : ApiSource)) = sources := by
  have hpw : List.Pairwise
      (fun s s' : ApiSource => (s.key != s'.key) = true) sources :=
    (nodup_map_pairwise (fun s => s.key) sources hnd).imp fun h => bne_iff_ne.mpr h
  have hfold := foldl_upsert_eq_map
    (fun s : ApiSource =>
      (⟨s.key, s.name, s.api, s.detail, s.«from», if s.disabled then 1 else 0⟩ :
        ApiSourceRow))
    (fun s r => r.key != s.key) sources [] (by intro r hr; cases hr) hpw
  rw [show (sources.foldl
      (fun t s => t.filter (fun r => r.key != s.key) ++
        [(⟨s.key, s.name, s.api, s.detail, s.«from», if s.disabled then 1 else 0⟩ :
          ApiSourceRow)]) []) =
      sources.map (fun s =>
        (⟨s.key, s.name, s.api, s.detail, s.«from», if s.disabled then 1 else 0⟩ :
          ApiSourceRow)) from by simpa using hfold]
  rw [List.map_map]
  conv_rhs => rw [← List.map_id sources]
  apply List.map_congr_left
  intro s hs
  have hdis : ((if s.disabled then (1 : Nat) else 0) != 0) = s.disabled := by
    cases s.disabled <;> rfl
  simp only [Function.comp, id, optTruthy_of_ne _ (hhyg s hs), hdis]

/-- Writing the live sources into an empty table and reading them back is
the identity (duplicate-free keys; no empty-string UA/EPG, no zero channel
number). -/
theorem liveSources_set_get (sources : List LiveSource)
    (hnd : (sources.map (fun s => s.key)).Nodup)
    (hhyg : ∀ s ∈ sources, s.ua ≠ some "" ∧ s.epg ≠ some "" ∧ s.channelNumber ≠ some 0) :
    (sources.foldl
        (fun t s => t.filter (fun r => r.key != s.key) ++
          [(⟨s.key, s.name, s.url, s.ua, s.epg, s.«from», s.channelNumber,
            if s.disabled then 1 else 0⟩ : LiveSourceRow)]) []).map
      (fun r => ({ key := r.key, name := r.name, url := r.url
                   ua := optTruthy r.user_agent
                   epg := optTruthy r.epg
                   «from» := r.from_source
                   channelNumber :=
                     match r.channel_number with
                     | some n => if n != 0 then some n else none
                     | none => none
                   disabled := r.disabled != 0 } : LiveSource)) = sources := by
  have hpw : List.Pairwise
      (fun s s' : LiveSource => (s.key != s'.key) = true) sources :=
    (nodup_map_pairwise (fun s => s.key) sources hnd).imp fun h => bne_iff_ne.mpr h
  have hfold := foldl_upsert_eq_map
    (fun s : LiveSource =>
      (⟨s.key, s.name, s.url, s.ua, s.epg, s.«from», s.channelNumber,
        if s.disabled then 1 else 0⟩ : LiveSourceRow))
    (fun s r => r.key != s.key) sources [] (by intro r hr; cases hr) hpw
  rw [show (sources.foldl
      (fun t s => t.filter (fun r => r.key != s.key) ++
        [(⟨s.key, s.name, s.url, s.ua, s.epg, s.«from», s.channelNumber,
          if s.disabled then 1 else 0⟩ : LiveSourceRow)]) []) =
      sources.map (fun s =>
        (⟨s.key, s.name, s.url, s.ua, s.epg, s.«from», s.channelNumber,
          if s.disabled then 1 else 0⟩ : LiveSourceRow)) from by simpa using hfold]
  rw [List.map_map]
  conv_rhs => rw [← List.map_id sources]
  apply List.map_congr_left
  intro s hs
  obtain ⟨hua, hepg, hch⟩ := hhyg s hs
  have hdis : ((if s.disabled then (1 : Nat) else 0) != 0) = s.disabled := by
    cases s.disabled <;> rfl
  have hchn : (match s.channelNumber with
      | some n => if n != 0 then some n else none
      | none => none) = s.channelNumber := by
    cases hc : s.channelNumber with
    | none => rfl
    | some n =>
        have hn : (n != 0) = true := by
          simp only [bne_iff_ne, ne_eq]
          intro hn0
          exact hch (by rw [hc, hn0])
        simp [hn]
  simp only [Function.comp, id, optTruthy_of_ne _ hua, optTruthy_of_ne _ hepg,
    hdis, hchn]

/-- Writing the categories into an empty table and reading them back is the
identity (duplicate-free (query,type) pairs, no empty-string name). -/
theorem categories_set_get (cats : List Category)
    (hnd : (cats.map (fun c => (c.query, c.type))).Nodup)
    (hhyg : ∀ c ∈ cats, c.name ≠ some "") :
    (cats.foldl
        (fun t c => t.filter (fun r => !(r.query == c.query && r.type == c.type)) ++
          [(⟨c.query, c.type, c.name, c.«from», if c.disabled then 1 else 0⟩ :
            CategoryRow)]) []).map
      (fun r => ({ query := r.query, type := r.type
                   name := optTruthy r.name
                   «from» := r.from_source
                   disabled := r.disabled != 0 } : Category)) = cats := by
  have hpw : List.Pairwise
      (fun c c' : Category =>
        (!(c.query == c'.query && c.type == c'.type)) = true) cats := by
    refine (nodup_map_pairwise (fun c => (c.query, c.type)) cats hnd).imp ?_
    intro a b h
    have : a.query ≠ b.query ∨ a.type ≠ b.type := by
      by_cases hq : a.query = b.query
      · right
        intro ht
        exact h (by rw [hq, ht])
      · left
        exact hq
    rcases this with h' | h' <;> simp [h']
  have hfold := foldl_upsert_eq_map
    (fun c : Category =>
      (⟨c.query, c.type, c.name, c.«from», if c.disabled then 1 else 0⟩ : CategoryRow))
    (fun c r => !(r.query == c.query && r.type == c.type)) cats []
    (by intro r hr; cases hr) hpw
  rw [show (cats.foldl
      (fun t c => t.filter (fun r => !(r.query == c.query && r.type == c.type)) ++
        [(⟨c.query, c.type, c.name, c.«from», if c.disabled then 1 else 0⟩ :
          CategoryRow)]) []) =
      cats.map (fun c =>
        (⟨c.query, c.type, c.name, c.«from», if c.disabled then 1 else 0⟩ :
          CategoryRow)) from by simpa using hfold]
  rw [List.map_map]
  conv_rhs => rw [← List.map_id cats]
  apply List.map_congr_left
  intro c hc
  have hdis : ((if c.disabled then (1 : Nat) else 0) != 0) = c.disabled := by
    cases c.disabled <;> rfl
  simp only [Function.comp, id, optTruthy_of_ne _ (hhyg c hc), hdis]

/-- C7: the admin-config round trip.  The unrestricted claim is false
(`adminConfig_roundtrip_counterexample`: users are written update-only, so
a configuration user without a matching row is dropped).  Amended: writing
`cfg` onto a database whose settings/collection tables are empty and whose
`users` table carries exactly `cfg`'s (duplicate-free) usernames, with
truthy subscription/site objects, `Tags`/`LiveConfig` present, and
hygienic fields (no passwords, nonempty roles, array tag/API lists,
duplicate-free collection keys, no empty-string or zero optional columns),
then reading back reproduces the config file, subscription descriptor and
site settings exactly, the users as a permutation (multiset), and the tag,
source, category and live-source collections exactly. -/
theorem setAdminConfig_getAdminConfig
    (dsc : Json) (db : DB) (cfg : AdminConfig)
    (tags : List UserGroup) (lives : List LiveSource)
    (hac : db.admin_config = [])
    (hug : db.user_groups = [])
    (hapi : db.api_sources = [])
    (hlsrc : db.live_sources = [])
    (hcats : db.categories = [])
    (hsub : jsTruthy cfg.ConfigSubscribtion = true)
    (hsite : jsTruthy cfg.SiteConfig = true)
    (htags : cfg.Tags = some tags)
    (hlive : cfg.LiveConfig = some lives)
    (hund : (cfg.Users.map (fun u => u.username)).Nodup)
    (huperm : (db.users.map (fun r => r.username)).Perm
      (cfg.Users.map (fun u => u.username)))
    (huhyg : ∀ u ∈ cfg.Users, u.password = none ∧ (u.role == "") = false ∧
      u.tags.isArr = true ∧ u.enabledApis.isArr = true)
    (htnd : (tags.map (fun g => g.name)).Nodup)
    (hthyg : ∀ g ∈ tags, g.enabledApis.isArr = true)
    (hsnd : (cfg.SourceConfig.map (fun s => s.key)).Nodup)
    (hshyg : ∀ s ∈ cfg.SourceConfig, s.detail ≠ some "")
    (hlnd : (lives.map (fun s => s.key)).Nodup)
    (hlhyg : ∀ s ∈ lives, s.ua ≠ some "" ∧ s.epg ≠ some "" ∧
      s.channelNumber ≠ some 0)
    (hcnd : (cfg.CustomCategories.map (fun c => (c.query, c.type))).Nodup)
    (hchyg : ∀ c ∈ cfg.CustomCategories, c.name ≠ some "") :
    ∃ c, SqliteStorage.getAdminConfig dsc (SqliteStorage.setAdminConfig db cfg) =
        some c ∧
      c.ConfigFile = cfg.ConfigFile ∧
      c.ConfigSubscribtion = cfg.ConfigSubscribtion ∧
      c.SiteConfig = cfg.SiteConfig ∧
      c.Users.Perm cfg.Users ∧
      c.Tags = cfg.Tags ∧
      c.SourceConfig = cfg.SourceConfig ∧
      c.CustomCategories = cfg.CustomCategories ∧
      c.LiveConfig = cfg.LiveConfig := by
  have hkey : ∃ ac3 : List KVRow,
      SqliteStorage.setAdminConfig db cfg =
        { db with
          admin_config := ac3
          users := cfg.Users.foldl
            (fun t u => t.map fun r =>
              if r.username == u.username then updRow u r else r) db.users
          user_groups := tags.foldl
            (fun t g => t.filter (fun r => r.name != g.name) ++
              [(⟨g.name, jsonStringify (jsonOrEmptyArr g.enabledApis)⟩ : KVRow)]) []
          api_sources := cfg.SourceConfig.foldl
            (fun t s => t.filter (fun r => r.key != s.key) ++
              [(⟨s.key, s.name, s.api, s.detail, s.«from»,
                if s.disabled then 1 else 0⟩ : ApiSourceRow)]) []
          live_sources := lives.foldl
            (fun t s => t.filter (fun r => r.key != s.key) ++
              [(⟨s.key, s.name, s.url, s.ua, s.epg, s.«from», s.channelNumber,
                if s.disabled then 1 else 0⟩ : LiveSourceRow)]) []
          categories := cfg.CustomCategories.foldl
            (fun t c => t.filter
                (fun r => !(r.query == c.query && r.type == c.type)) ++
              [(⟨c.query, c.type, c.name, c.«from»,
                if c.disabled then 1 else 0⟩ : CategoryRow)]) [] } ∧
      List.foldlM applyKvRow
          (⟨"", defaultConfigSubscribtion, dsc, .arr .nil, .arr .nil, .arr .nil⟩ :
            KvAcc) ac3 =
        some ⟨cfg.ConfigFile, cfg.ConfigSubscribtion, cfg.SiteConfig,
          .arr .nil, .arr .nil, .arr .nil⟩ := by
    cases hcf : cfg.ConfigFile == "" with
    | false =>
        refine ⟨[⟨"config_file", cfg.ConfigFile⟩,
                 ⟨"config_subscription", jsonStringify cfg.ConfigSubscribtion⟩,
                 ⟨"site_config", jsonStringify cfg.SiteConfig⟩], ?_, ?_⟩
        · unfold SqliteStorage.setAdminConfig
          rw [htags, hlive]
          dsimp only
          rw [if_pos (show (cfg.ConfigFile != "") = true by simp [bne, hcf])]
          rw [if_pos hsub, if_pos hsite]
          unfold SqliteStorage.setAllUsers SqliteStorage.setAllUserGroups
            SqliteStorage.setAllApiSources SqliteStorage.setAllCategories
            SqliteStorage.setAllLiveSources
          dsimp only
          rw [hac, hug, hapi, hlsrc, hcats]
          rfl
        · simp [List.foldlM_cons, List.foldlM_nil, applyKvRow,
            jsonParse_jsonStringify]
    | true =>
        have hcf' : cfg.ConfigFile = "" := by simpa using hcf
        refine ⟨[⟨"config_subscription", jsonStringify cfg.ConfigSubscribtion⟩,
                 ⟨"site_config", jsonStringify cfg.SiteConfig⟩], ?_, ?_⟩
        · unfold SqliteStorage.setAdminConfig
          rw [htags, hlive]
          dsimp only
          rw [if_neg (show ¬(cfg.ConfigFile != "") = true by simp [bne, hcf])]
          rw [if_pos hsub, if_pos hsite]
          unfold SqliteStorage.setAllUsers SqliteStorage.setAllUserGroups
            SqliteStorage.setAllApiSources SqliteStorage.setAllCategories
            SqliteStorage.setAllLiveSources
          dsimp only
          rw [hac, hug, hapi, hlsrc, hcats]
          rfl
        · simp [List.foldlM_cons, List.foldlM_nil, applyKvRow,
            jsonParse_jsonStringify]
          rw [hcf']
  obtain ⟨ac3, hset, hfold⟩ := hkey
  unfold SqliteStorage.getAdminConfig
  rw [hset]
  dsimp only
  rw [hfold]
  dsimp only
  refine ⟨_, rfl, rfl, rfl, rfl, ?_, ?_, ?_, ?_, ?_⟩
  · -- users: a permutation of the configuration's users
    unfold SqliteStorage.getAllUsers
    dsimp only
    rw [foldl_update_eq_map cfg.Users db.users hund, List.map_map]
    have h1 : db.users.map ((decodeUserRow false) ∘ fun r =>
          match cfg.Users.find? (fun u => r.username == u.username) with
          | some u => updRow u r
          | none => r) =
        (db.users.map (fun r => r.username)).map (fun n =>
          match cfg.Users.find? (fun v => n == v.username) with
          | some u => u
          | none => (⟨"", none, "", false, .arr .nil, .arr .nil⟩ : User)) := by
      rw [List.map_map]
      apply List.map_congr_left
      intro r hr
      have hmem : r.username ∈ cfg.Users.map (fun u => u.username) :=
        huperm.mem_iff.mp (List.mem_map_of_mem (fun r => r.username) hr)
      obtain ⟨u, hu, hun⟩ := List.mem_map.mp hmem
      have hfind : cfg.Users.find? (fun v => r.username == v.username) = some u := by
        rw [← hun]
        exact find?_username_self cfg.Users u hu hund
      obtain ⟨hp, hrole, ht, he⟩ := huhyg u hu
      dsimp only [Function.comp]
      rw [hfind]
      exact decode_updRow u r hun.symm hp hrole ht he
    have h2 : (cfg.Users.map (fun u => u.username)).map (fun n =>
          match cfg.Users.find? (fun v => n == v.username) with
          | some u => u
          | none => (⟨"", none, "", false, .arr .nil, .arr .nil⟩ : User)) =
        cfg.Users := by
      rw [List.map_map]
      conv_rhs => rw [← List.map_id cfg.Users]
      apply List.map_congr_left
      intro u hu
      dsimp only [Function.comp, id]
      rw [find?_username_self cfg.Users u hu hund]
    rw [h1]
    exact (huperm.map _).trans (by rw [h2])
  · -- tags
    have hG : SqliteStorage.getAllUserGroups
        (SqliteStorage.setAdminConfig db cfg) = tags := by
      rw [hset]
      unfold SqliteStorage.getAllUserGroups
      dsimp only
      exact groups_set_get tags htnd hthyg
    rw [hset] at hG
    rw [hG, htags]
  · -- api sources
    have hS : SqliteStorage.getAllApiSources
        (SqliteStorage.setAdminConfig db cfg) = cfg.SourceConfig := by
      rw [hset]
      unfold SqliteStorage.getAllApiSources
      dsimp only
      exact apiSources_set_get cfg.SourceConfig hsnd hshyg
    rw [hset] at hS
    rw [hS]
  · -- categories
    have hC : SqliteStorage.getAllCategories
        (SqliteStorage.setAdminConfig db cfg) = cfg.CustomCategories := by
      rw [hset]
      unfold SqliteStorage.getAllCategories
      dsimp only
      exact categories_set_get cfg.CustomCategories hcnd hchyg
    rw [hset] at hC
    rw [hC]
  · -- live sources
    have hL : SqliteStorage.getAllLiveSources
        (SqliteStorage.setAdminConfig db cfg) = lives := by
      rw [hset]
      unfold SqliteStorage.getAllLiveSources
      dsimp only
      exact liveSources_set_get lives hlnd hlhyg
    rw [hset] at hL
    rw [hL, hlive]

/-- Concrete tag list for the round-trip witness. -/
def tags7 : List UserGroup := [⟨"vip", .arr .nil⟩]

/-- Concrete live-source list for the round-trip witness. -/
def lives7 : List LiveSource :=
  [⟨"l1", "ln", "url", none, none, "config", none, false⟩]

/-- Concrete configuration for the round-trip witness. -/
def cfg7 : AdminConfig :=
  ⟨.obj (.cons "URL" (.str "u") .nil), "file", .obj .nil,
    [⟨"alice", none, "user", false, .arr .nil, .arr .nil⟩], some tags7,
    [⟨"k1", "n1", "a1", none, "config", false⟩],
    [⟨"q1", "movie", none, "config", false⟩], some lives7⟩

/-- Concrete database for the round-trip witness: clean tables, one
registered user matching the configuration. -/
def db7 : DB := { DB.empty with users := [⟨"alice", "pw", "user", 0, none, none⟩] }

/-- Witness for the amended admin-config round trip at a concrete
database and configuration. -/
theorem setAdminConfig_getAdminConfig_witness :
    ∃ c, SqliteStorage.getAdminConfig (.bool true)
        (SqliteStorage.setAdminConfig db7 cfg7) = some c ∧
      c.ConfigFile = cfg7.ConfigFile ∧
      c.ConfigSubscribtion = cfg7.ConfigSubscribtion ∧
      c.SiteConfig = cfg7.SiteConfig ∧
      c.Users.Perm cfg7.Users ∧
      c.Tags = cfg7.Tags ∧
      c.SourceConfig = cfg7.SourceConfig ∧
      c.CustomCategories = cfg7.CustomCategories ∧
      c.LiveConfig = cfg7.LiveConfig :=
  setAdminConfig_getAdminConfig (.bool true) db7 cfg7 tags7 lives7
    rfl rfl rfl rfl rfl rfl rfl rfl rfl
    (by decide) (of_decide_eq_true rfl) (by decide) (of_decide_eq_true rfl)
    (by decide) (of_decide_eq_true rfl) (by decide) (of_decide_eq_true rfl)
    (by decide) (of_decide_eq_true rfl) (by decide)

end LunaTV
